import Mathlib

/-!
Verification development for the dbus-codegen-go repository.

The Go sources are shallowly embedded: Go strings are modelled as Lean
`String` (a packed `List Char`); all inputs exercised here are ASCII, on
which Lean's `Char.toUpper`/`Char.toLower`/`Char.isAlpha`/`Char.isDigit`
agree with the Go `strings`/`unicode` functions and with the ASCII-only
regexp character classes used by the source.  Go `int` loop indices are
modelled as `Nat` (every call site passes a `range` index).  The external
Go toolchain used by `printer.Print` (`go/parser.ParseFile` and
`go/format.Node`) is not part of this repository and is passed in as an
explicit function parameter.
-/

namespace token

/-- Modelled from the spec: the `token` package of this repository is not
included under `src/`; its record types are reconstructed from spec §3
(data model) and from the fields that `printer/printer.go`,
`cmd/dbus-codegen-go/main.go` and the template read (`Name`, `Methods`,
`Properties`, `Signals`, `Annotations`, `In`, `Out`, `Args`, `Arg`,
`Type`, `Read`, `Write`, annotation `Name`/`Value`). -/
structure Annot where
  name : String
  value : String
deriving DecidableEq

/-- Modelled from the spec: `token.Arg` (name may be empty; `Type` is the
already-rendered Go type string consumed by the template). -/
structure Arg where
  name : String
  type : String
deriving DecidableEq

/-- Modelled from the spec: `token.Method` (`In`/`Out` argument lists). -/
structure Method where
  name : String
  inArgs : List Arg
  outArgs : List Arg
  annotations : List Annot
deriving DecidableEq

/-- Modelled from the spec: `token.Property`. -/
structure Property where
  name : String
  arg : Arg
  read : Bool
  write : Bool
  annotations : List Annot
deriving DecidableEq

/-- Modelled from the spec: `token.Signal`. -/
structure Signal where
  name : String
  args : List Arg
  annotations : List Annot
deriving DecidableEq

/-- Modelled from the spec: `token.Interface`. -/
structure Interface where
  name : String
  methods : List Method
  properties : List Property
  signals : List Signal
  annotations : List Annot
deriving DecidableEq

end token

namespace gostrings

/-- Go `strings.isSeparator` restricted to ASCII (every character these
sources feed to `strings.Title` is ASCII): alphanumerics and underscore
are not separators, every other ASCII character is. -/
def isSeparator (c : Char) : Bool :=
  if c.val ≤ 0x7F then
    !(('0' ≤ c && c ≤ '9') || ('a' ≤ c && c ≤ 'z') || ('A' ≤ c && c ≤ 'Z') || c = '_')
  else
    false

/-- Scan of Go `strings.Title`: a rune is title-cased when the previous
rune is a separator (the scan starts with `prev = ' '`). -/
def titleAux (prev : Char) : List Char → List Char
  | [] => []
  | c :: rest => (if isSeparator prev then c.toUpper else c) :: titleAux c rest

/-- Go `strings.Title` (ASCII fragment; `unicode.ToTitle` agrees with
`Char.toUpper` on ASCII). -/
def title (s : String) : String :=
  ⟨titleAux ' ' s.data⟩

end gostrings

namespace printer

/-- The 25 Go keywords, as recognized by `go/token.Lookup(...).IsKeyword()`
(printer.go line 326). -/
def goKeywords : List String :=
  ["break", "case", "chan", "const", "continue", "default", "defer", "else",
   "fallthrough", "for", "func", "go", "goto", "if", "import", "interface",
   "map", "package", "range", "return", "select", "struct", "switch", "type", "var"]

/-- printer.go `isKeyword`. -/
def isKeyword (s : String) : Bool :=
  goKeywords.contains s

/-- printer.go `identRegexp = ^[a-zA-Z][a-zA-Z0-9_]*$` applied by
`MatchString` (anchored, whole-string). -/
def identRegexpMatch (s : String) : Bool :=
  match s.data with
  | [] => false
  | c :: rest =>
    c.isAlpha && rest.all (fun d => d.isAlpha || d.isDigit || d = '_')

/-- The ASCII-alphanumeric class `[a-zA-Z0-9]` of `varRegexp` and
`ifaceRegexp`. -/
def isAlnum (c : Char) : Bool :=
  c.isAlpha || c.isDigit

/-- Scan implementing `varRegexp.ReplaceAllStringFunc` for
`varRegexp = _+[a-zA-Z0-9]` with replacement
`strings.Title(strings.TrimLeft(match, "_"))` (printer.go lines 426,
433-436).  `n` counts underscores seen but not yet resolved into a match:
an underscore run followed by an ASCII alphanumeric is replaced by that
character upper-cased, any other underscore run is left as it stands. -/
def varReplaceAux : Nat → List Char → List Char
  | n, [] => List.replicate n '_'
  | n, c :: rest =>
    if c = '_' then varReplaceAux (n + 1) rest
    else if isAlnum c then
      if n = 0 then c :: varReplaceAux 0 rest
      else c.toUpper :: varReplaceAux 0 rest
    else List.replicate n '_' ++ c :: varReplaceAux 0 rest

def varReplace (l : List Char) : List Char :=
  varReplaceAux 0 l

/-- printer.go `argName` (lines 428-445).  `arg.Name == ""` yields
`prefix + strconv.Itoa(i)`; otherwise the first byte is lower-cased and
`varRegexp` camel-cases the rest; `export` applies `strings.Title`; a
keyword result is replaced by `prefix + strings.Title(name)`. -/
def argName (arg : token.Arg) (pfx : String) (i : Nat) (exported : Bool) : String :=
  let name :=
    match arg.name.data with
    | [] => pfx ++ Nat.repr i
    | c :: rest => ⟨c.toLower :: varReplace rest⟩
  let name := if exported then gostrings.title name else name
  if isKeyword name then pfx ++ gostrings.title name else name

end printer

-- Sanity checks of the embedding against the Go semantics.
example : printer.argName ⟨"foo_bar", "t"⟩ "v" 0 false = "fooBar" := by decide
example : printer.argName ⟨"foo__bar", "t"⟩ "v" 0 false = "fooBar" := by decide
example : printer.argName ⟨"", "t"⟩ "in" 2 false = "in2" := by decide
example : printer.argName ⟨"type", "t"⟩ "v" 0 false = "vType" := by decide
example : printer.argName ⟨"type", "t"⟩ "v" 0 true = "Type" := by decide
example : printer.argName ⟨"a_._b", "t"⟩ "v" 0 false = "a_.B" := by decide
example : printer.argName ⟨"Type", "t"⟩ "v" 0 false = "vType" := by decide
example : gostrings.title "camel_case_name" = "Camel_case_name" := by decide

namespace printer

/-- The `prefix[:len(prefix)-1]` trim of a trailing dot in `ifaceType`
(printer.go lines 336-338) on a *nonempty* prefix.  Go indexes
`prefix[len(prefix)-1]` first and panics on an empty prefix; that panic
is modelled by `trimDotChecked` below, while this total function (which
leaves `[]` unchanged) only feeds the render model on non-panicking
runs. -/
def trimDot (p : List Char) : List Char :=
  match p.getLast? with
  | some '.' => p.dropLast
  | _ => p

/-- Go `strings.Index`: index of the leftmost occurrence of `needle` as a
substring of `hay`, or `none` (`-1` in Go). -/
def indexOfSub (i : Nat) (hay needle : List Char) : Option Nat :=
  if needle.isPrefixOf hay then some i
  else
    match hay with
    | [] => none
    | _ :: t => indexOfSub (i + 1) t needle

/-- Totalization of the prefix-stripping loop of `ifaceType`
(printer.go lines 335-343) used by the render model: the first
configured prefix found *anywhere* in the name (after trimming one
trailing dot) cuts the name just past the occurrence plus one extra
character, then the loop breaks.  Go's two panics on this path — the
empty-prefix index at line 336 and the out-of-range slice
`name[i+len(prefix)+1:]` at line 340 when the occurrence reaches the
end of the name — are modelled faithfully by `stripPfxChecked` below;
`stripPfx_agree` shows this total version coincides with it on every
non-panicking run, which are the only runs the render ever completes. -/
def stripPfx : List String → List Char → List Char
  | [], name => name
  | p :: rest, name =>
    let q := trimDot p.data
    match indexOfSub 0 name q with
    | some i => name.drop (i + q.length + 1)
    | none => stripPfx rest name

/-- Faithful model of the prefix-stripping loop of `ifaceType`
(printer.go lines 335-343) with Go's panics made explicit: `none` when
a configured prefix is empty (`prefix[len(prefix)-1]` at line 336
indexes out of range) or when the matched occurrence reaches the end of
the name, so that `name[i+len(prefix)+1:]` at line 340 slices out of
range (a Go slice `name[k:]` requires `k ≤ len(name)`). -/
def stripPfxChecked : List String → List Char → Option (List Char)
  | [], name => some name
  | p :: rest, name =>
    if p.data.isEmpty then none
    else
      let q := trimDot p.data
      match indexOfSub 0 name q with
      | some i =>
        if i + q.length + 1 ≤ name.length then some (name.drop (i + q.length + 1))
        else none
      | none => stripPfxChecked rest name

/-- On every run where Go does not panic, the total `stripPfx` computes
exactly what the loop computes. -/
theorem stripPfx_agree : ∀ (ps : List String) (name r : List Char),
    stripPfxChecked ps name = some r → stripPfx ps name = r := by
  intro ps
  induction ps with
  | nil =>
    intro name r h
    rw [stripPfxChecked] at h
    injection h
  | cons p rest ih =>
    intro name r h
    rw [stripPfxChecked] at h
    by_cases hp : p.data.isEmpty
    · rw [if_pos hp] at h; cases h
    · rw [if_neg hp] at h
      cases hidx : indexOfSub 0 name (trimDot p.data) with
      | some i =>
        simp only [hidx] at h
        by_cases hb : i + (trimDot p.data).length + 1 ≤ name.length
        · rw [if_pos hb] at h
          injection h with h
          simp only [stripPfx, hidx]
          exact h
        · rw [if_neg hb] at h; cases h
      | none =>
        simp only [hidx] at h
        simp only [stripPfx, hidx]
        exact ih name r h

/-- Scan implementing `ifaceRegexp.ReplaceAllStringFunc` for
`ifaceRegexp = [._][a-zA-Z0-9]` with replacement
`"_" + strings.ToUpper(s[1:])` (printer.go lines 331, 348-350). -/
def ifaceReplace : List Char → List Char
  | [] => []
  | [c] => [c]
  | c :: d :: rest =>
    if (c = '.' || c = '_') && isAlnum d then '_' :: d.toUpper :: ifaceReplace rest
    else c :: ifaceReplace (d :: rest)

/-- printer.go `ifaceType` (lines 333-351). -/
def ifaceType (pfxs : List String) (iface : token.Interface) : String :=
  let name : String := ⟨stripPfx pfxs iface.name.data⟩
  let name := gostrings.title name
  if isKeyword name then name
  else ⟨ifaceReplace name.data⟩

/-- printer.go `ifaceNewType`. -/
def ifaceNewType (pfxs : List String) (iface : token.Interface) : String :=
  "New" ++ ifaceType pfxs iface

/-- printer.go `ifaceNameConst`. -/
def ifaceNameConst (pfxs : List String) (iface : token.Interface) : String :=
  "Interface" ++ ifaceType pfxs iface

/-- printer.go `methodType`. -/
def methodType (method : token.Method) : String :=
  gostrings.title method.name

/-- printer.go `propType`. -/
def propType (prop : token.Property) : String :=
  gostrings.title prop.name

/-- printer.go `propGetType`. -/
def propGetType (prop : token.Property) : String :=
  "Get" ++ propType prop

/-- printer.go `propSetType`. -/
def propSetType (prop : token.Property) : String :=
  "Set" ++ propType prop

/-- printer.go `propNeedsAccessor` (lines 409-416): compares each raw
method name with the derived accessor name. -/
def propNeedsAccessor (iface : token.Interface) (name : String) : Bool :=
  !(iface.methods.any fun method => method.name = name)

/-- printer.go `propNeedsSet`. -/
def propNeedsSet (iface : token.Interface) (prop : token.Property) : Bool :=
  if !prop.write then false
  else propNeedsAccessor iface (propSetType prop)

/-- printer.go `propNeedsGet`. -/
def propNeedsGet (iface : token.Interface) (prop : token.Property) : Bool :=
  if !prop.read then false
  else propNeedsAccessor iface (propGetType prop)

/-- printer.go `signalType`. -/
def signalType (pfxs : List String) (iface : token.Interface) (signal : token.Signal) : String :=
  ifaceType pfxs iface ++ "_" ++ gostrings.title signal.name ++ "Signal"

/-- printer.go `signalBodyType`. -/
def signalBodyType (pfxs : List String) (iface : token.Interface) (signal : token.Signal) : String :=
  signalType pfxs iface signal ++ "Body"

/-- printer.go `propArgName`. -/
def propArgName (prop : token.Property) : String :=
  argName prop.arg "v" 0 false

/-- printer.go `joinStoreArgs`. -/
def joinStoreArgs (args : List token.Arg) : String :=
  String.join <| args.enum.map fun p =>
    (if p.1 = 0 then "" else ",") ++ "&" ++ argName p.2 "out" p.1 false

/-- printer.go `joinArgs`. -/
def joinArgs (args : List token.Arg) (sep : Char) (suffix : String) (exported : Bool) : String :=
  String.join <| args.enum.map fun p =>
    argName p.2 suffix p.1 exported ++ " " ++ p.2.type ++ sep.toString

/-- printer.go `joinSignalArgs`. -/
def joinSignalArgs (sig : token.Signal) : String :=
  joinArgs sig.args ';' "v" true

/-- printer.go `joinMethodInArgs`. -/
def joinMethodInArgs (method : token.Method) : String :=
  joinArgs method.inArgs ',' "in" false

/-- printer.go `joinMethodOutArgs`. -/
def joinMethodOutArgs (method : token.Method) : String :=
  joinArgs method.outArgs ',' "out" false

/-- printer.go `joinArgNames`. -/
def joinArgNames (args : List token.Arg) : String :=
  String.join <| args.enum.map fun p =>
    (if p.1 = 0 then "" else ",") ++ argName p.2 "in" p.1 false

end printer

-- The repository's own test (printer/part_000 `TestIfaceName`).
example : printer.ifaceType [] ⟨"camel_case_name", [], [], [], []⟩ = "Camel_Case_Name" := by decide
example : printer.ifaceType [] ⟨"org.example.Foo", [], [], [], []⟩ = "Org_Example_Foo" := by decide
example : printer.ifaceType ["org.example"] ⟨"org.example.Foo", [], [], [], []⟩ = "Foo" := by decide
example : printer.ifaceType ["org.example."] ⟨"org.example.Foo", [], [], [], []⟩ = "Foo" := by decide
example : printer.ifaceType ["example"] ⟨"org.example.Foo", [], [], [], []⟩ = "Foo" := by decide

namespace printer

/-- The `printer` options record (printer.go lines 22-26) after all
`PrintOption`s have been applied; defaults are `pkgName = "dbusgen"`,
`gofmt = true`, `prefixes = []`. -/
structure Printer where
  pkgName : String
  gofmt : Bool
  prefixes : List String
deriving DecidableEq

/-- Go's built-in `<`/`≤` on strings is byte-wise lexicographic; for the
ASCII inputs modelled here that is character-wise lexicographic order. -/
def strLe : List Char → List Char → Bool
  | [], _ => true
  | _ :: _, [] => false
  | a :: as, b :: bs => if a = b then strLe as bs else decide (a < b)

theorem strLe_total : ∀ x y : List Char, strLe x y = true ∨ strLe y x = true
  | [], _ => Or.inl rfl
  | _ :: _, [] => Or.inr rfl
  | a :: as, b :: bs => by
    by_cases hab : a = b
    · subst hab
      simpa [strLe] using strLe_total as bs
    · rcases lt_trichotomy a b with h | h | h
      · left; simp [strLe, hab, h]
      · exact absurd h hab
      · right; simp [strLe, Ne.symm hab, h]

theorem strLe_trans : ∀ x y z : List Char,
    strLe x y = true → strLe y z = true → strLe x z = true
  | [], _, _, _, _ => rfl
  | _ :: _, [], _, h1, _ => by simp [strLe] at h1
  | _ :: _, _ :: _, [], _, h2 => by simp [strLe] at h2
  | a :: as, b :: bs, c :: cs, h1, h2 => by
    by_cases hab : a = b <;> by_cases hbc : b = c
    · subst hab; subst hbc
      simp only [strLe, if_pos rfl] at h1 h2 ⊢
      exact strLe_trans as bs cs h1 h2
    · subst hab
      simp only [strLe, hbc, if_neg, ite_false] at h2 ⊢
      exact h2
    · subst hbc
      simp only [strLe, hab, if_neg, ite_false] at h1 ⊢
      exact h1
    · have h1' : a < b := by simpa [strLe, hab] using h1
      have h2' : b < c := by simpa [strLe, hbc] using h2
      have hac : a < c := lt_trans h1' h2'
      simp [strLe, ne_of_lt hac, hac]

theorem strLe_antisymm : ∀ x y : List Char,
    strLe x y = true → strLe y x = true → x = y
  | [], [], _, _ => rfl
  | [], _ :: _, _, h2 => by simp [strLe] at h2
  | _ :: _, [], h1, _ => by simp [strLe] at h1
  | a :: as, b :: bs, h1, h2 => by
    by_cases hab : a = b
    · subst hab
      simp only [strLe, if_pos rfl] at h1 h2
      rw [strLe_antisymm as bs h1 h2]
    · have h1' : a < b := by simpa [strLe, hab] using h1
      have h2' : b < a := by simpa [strLe, Ne.symm hab] using h2
      exact absurd h2' (lt_asymm h1')

/-- Comparison `f a ≤ f b` (on Go strings) holding between slice entries
after any `sort.Slice` call of `prepareIfaces` (each call compares a
`Name` field with `<`; a comparison sort with that `less` produces a
`≤`-sorted slice). -/
def keyLE {α : Type} (f : α → String) (a b : α) : Prop :=
  strLe (f a).data (f b).data = true

instance {α : Type} (f : α → String) : DecidableRel (keyLE f) :=
  fun a b => inferInstanceAs (Decidable (strLe (f a).data (f b).data = true))

instance {α : Type} (f : α → String) : IsTotal α (keyLE f) :=
  ⟨fun a b => strLe_total (f a).data (f b).data⟩

instance {α : Type} (f : α → String) : IsTrans α (keyLE f) :=
  ⟨fun a b c h1 h2 => strLe_trans (f a).data (f b).data (f c).data h1 h2⟩

/-- The inner loop of `prepareIfaces` (printer.go lines 313-323): sort
the three member slices of one interface by name.  Go's `sort.Slice` is
an arbitrary comparison sort (unstable); it is modelled by insertion
sort, with which it agrees whenever the keys are pairwise distinct. -/
def sortIface (i : token.Interface) : token.Interface :=
  { i with
    methods := List.insertionSort (keyLE token.Method.name) i.methods
    properties := List.insertionSort (keyLE token.Property.name) i.properties
    signals := List.insertionSort (keyLE token.Signal.name) i.signals }

/-- printer.go `prepareIfaces` (lines 309-324): sort the interfaces by
name, then each interface's member slices by name.  In Go this mutates
the caller's slices in place; the model returns the slice's new
contents, and `Print` exposes them as the post-call state of its
argument. -/
def prepareIfaces (ifaces : List token.Interface) : List token.Interface :=
  (List.insertionSort (keyLE token.Interface.name) ifaces).map sortIface

/-- Annotation block of the template (`define "annotations"`, template
lines 159-163): one `// @name = value` line per annotation. -/
def renderAnnots (annots : List token.Annot) : String :=
  String.join (annots.map fun a => "\n// @" ++ a.name ++ " = " ++ a.value)

/-- One interface's entry in the generated header comment (template
lines 57-78). -/
def renderDocIface (i : token.Interface) : String :=
  "// " ++ i.name ++ "\n"
  ++ (if i.methods.isEmpty then "" else
      "//   Methods\n" ++ String.join (i.methods.map fun m => "//     " ++ m.name ++ "\n"))
  ++ (if i.properties.isEmpty then "" else
      "//   Properties\n" ++ String.join (i.properties.map fun p => "//     " ++ p.name ++ "\n"))
  ++ (if i.signals.isEmpty then "" else
      "//   Signals\n" ++ String.join (i.signals.map fun s => "//     " ++ s.name ++ "\n"))
  ++ "//\n"

/-- Fixed text between the header comment and the per-interface parts
(template lines 79-118): package clause, imports, property-method
constants, the `Interface` capability interface and the `Signal`
interface. -/
def renderPrelude (pkg : String) : String :=
  "package " ++ pkg ++ "\n\nimport (\n\t\"log\"\n\n\t\"github.com/godbus/dbus\"\n)\n\n"
  ++ "const (\n\tmethodPropertyGet = \"org.freedesktop.DBus.Properties.Get\"\n\tmethodPropertySet = \"org.freedesktop.DBus.Properties.Set\"\n)\n\n"
  ++ "// Avoid error caused by unused log import\nvar _ = log.Printf\n\n"
  ++ "// Interface is a DBus interface implementation.\ntype Interface interface \x7b\n\tiface() string\n\x7d\n\n"

/-- `LookupInterface` (template lines 100-110). -/
def renderLookupInterface (pfxs : List String) (ifaces : List token.Interface) : String :=
  "// LookupInterface returns an interface for the named object.\nfunc LookupInterface(object dbus.BusObject, iface string) Interface \x7b\n\tswitch iface \x7b\n"
  ++ String.join (ifaces.map fun i =>
      "\tcase " ++ ifaceNameConst pfxs i ++ ":\n\t\treturn " ++ ifaceNewType pfxs i ++ "(object)\n")
  ++ "\tdefault:\n\t\treturn nil\n\t\x7d\n\x7d\n\n"

/-- The `Signal` interface (template lines 112-118). -/
def renderSignalIfaceDecl : String :=
  "// Signal is a common interface for all signals.\ntype Signal interface \x7b\n\tName()      string\n\tInterface() string\n\tSender()    string\n\tPath()      dbus.ObjectPath\n\x7d\n\n"

/-- One `case` of `LookupSignal` (template lines 125-141). -/
def renderSignalCase (pkg : String) (pfxs : List String) (i : token.Interface) (s : token.Signal) : String :=
  "\tcase " ++ ifaceNameConst pfxs i ++ " + \".\" + \"" ++ s.name ++ "\":\n"
  ++ String.join (s.args.enum.map fun p =>
      "\t\tv" ++ Nat.repr p.1 ++ ", ok := signal.Body[" ++ Nat.repr p.1 ++ "].(" ++ p.2.type ++ ")\n"
      ++ "\t\tif !ok \x7b\n\t\t\tlog.Printf(\"[" ++ pkg ++ "] " ++ argName p.2 "v" p.1 true
      ++ " is %T, not " ++ p.2.type ++ "\", signal.Body[" ++ Nat.repr p.1 ++ "])\n\t\t\x7d\n")
  ++ "\t\treturn &" ++ signalType pfxs i s ++ "\x7b\n\t\t\tsender: signal.Sender,\n\t\t\tpath:   signal.Path,\n\t\t\tBody: "
  ++ signalBodyType pfxs i s ++ "\x7b\n"
  ++ String.join (s.args.enum.map fun p =>
      "\t\t\t\t" ++ argName p.2 "v" p.1 true ++ ": v" ++ Nat.repr p.1 ++ ",\n")
  ++ "\t\t\t\x7d,\n\t\t\x7d\n"

/-- `LookupSignal` (template lines 120-146). -/
def renderLookupSignal (pkg : String) (pfxs : List String) (ifaces : List token.Interface) : String :=
  "// LookupSignal converts the given raw DBus signal into typed one or returns nil.\nfunc LookupSignal(signal *dbus.Signal) Signal \x7b\n\tswitch signal.Name \x7b\n"
  ++ String.join (ifaces.map fun i => String.join (i.signals.map fun s => renderSignalCase pkg pfxs i s))
  ++ "\tdefault:\n\t\treturn nil\n\t\x7d\n\x7d\n\n"

/-- `AddMatchRule` (template lines 148-151). -/
def renderAddMatchRule : String :=
  "// AddMatchRule returns AddMatch rule for the given signal. \nfunc AddMatchRule(sig Signal) string \x7b\n\treturn \"type=\x27signal\x27,interface=\x27\" + sig.Interface() + \"\x27,member=\x27\" + sig.Name() + \"\x27\"\n\x7d\n\n"

/-- The interface-name constant block (template lines 153-158). -/
def renderNameConsts (pfxs : List String) (ifaces : List token.Interface) : String :=
  "// Interface name constants.\nconst (\n"
  ++ String.join (ifaces.map fun i =>
      "\t" ++ ifaceNameConst pfxs i ++ " = \"" ++ i.name ++ "\"\n")
  ++ ")\n"

/-- One method wrapper (template lines 180-187). -/
def renderMethod (pfxs : List String) (i : token.Interface) (m : token.Method) : String :=
  "\n// " ++ methodType m ++ " calls " ++ i.name ++ "." ++ m.name ++ " method."
  ++ renderAnnots m.annotations ++ "\n"
  ++ "func (o *" ++ ifaceType pfxs i ++ ") " ++ methodType m ++ "(" ++ joinMethodInArgs m
  ++ ") (" ++ joinMethodOutArgs m ++ "err error) \x7b\n"
  ++ "\terr = o.object.Call(" ++ ifaceNameConst pfxs i ++ " + \".\" + \"" ++ m.name ++ "\", 0, "
  ++ joinArgNames m.inArgs ++ ").Store(" ++ joinStoreArgs m.outArgs ++ ")\n\treturn\n\x7d\n"

/-- One property getter, emitted only under `propNeedsGet` (template
lines 189-196). -/
def renderPropGet (pfxs : List String) (i : token.Interface) (p : token.Property) : String :=
  "\n// " ++ propGetType p ++ " gets " ++ i.name ++ "." ++ p.name ++ " property."
  ++ renderAnnots p.annotations ++ "\n"
  ++ "func (o *" ++ ifaceType pfxs i ++ ") " ++ propGetType p ++ "() (" ++ propArgName p ++ " "
  ++ p.arg.type ++ ", err error) \x7b\n"
  ++ "\terr = o.object.Call(methodPropertyGet, 0, " ++ ifaceNameConst pfxs i ++ ", \"" ++ p.name
  ++ "\").Store(&" ++ propArgName p ++ ")\n\treturn\n\x7d\n"

/-- One property setter, emitted only under `propNeedsSet` (template
lines 197-203). -/
def renderPropSet (pfxs : List String) (i : token.Interface) (p : token.Property) : String :=
  "\n// " ++ propSetType p ++ " sets " ++ i.name ++ "." ++ p.name ++ " property."
  ++ renderAnnots p.annotations ++ "\n"
  ++ "func (o *" ++ ifaceType pfxs i ++ ") " ++ propSetType p ++ "(" ++ propArgName p ++ " "
  ++ p.arg.type ++ ") error \x7b\n"
  ++ "\treturn o.object.Call(methodPropertySet, 0, " ++ ifaceNameConst pfxs i ++ ", \"" ++ p.name
  ++ "\", " ++ propArgName p ++ ").Store()\n\x7d\n"

/-- One signal type with its body record (template lines 205-238). -/
def renderSignalDecl (pfxs : List String) (i : token.Interface) (s : token.Signal) : String :=
  "\n// " ++ signalType pfxs i s ++ " represents " ++ i.name ++ "." ++ s.name ++ " signal."
  ++ renderAnnots s.annotations ++ "\n"
  ++ "type " ++ signalType pfxs i s ++ " struct \x7b\n\tsender string\n\tpath   dbus.ObjectPath\n\tBody   "
  ++ signalBodyType pfxs i s ++ "\n\x7d\n\n"
  ++ "// Name returns the signal\x27s name.\nfunc (s *" ++ signalType pfxs i s
  ++ ") Name() string \x7b\n\treturn \"" ++ s.name ++ "\"\n\x7d\n\n"
  ++ "// Interface returns the signal\x27s interface.\nfunc (s *" ++ signalType pfxs i s
  ++ ") Interface() string \x7b\n\treturn " ++ ifaceNameConst pfxs i ++ "\n\x7d\n\n"
  ++ "// Sender returns the signal\x27s sender unique name.\nfunc (s *" ++ signalType pfxs i s
  ++ ") Sender() string \x7b\n\treturn s.sender\n\x7d\n\n"
  ++ "// Path returns path that emitted the signal.\nfunc (s *" ++ signalType pfxs i s
  ++ ") Path() dbus.ObjectPath \x7b\n\treturn s.path\n\x7d\n\n"
  ++ "// " ++ signalBodyType pfxs i s ++ " is body container.\ntype " ++ signalBodyType pfxs i s
  ++ " struct \x7b\n\t" ++ joinSignalArgs s ++ "\n\x7d\n"

/-- The per-interface block (template lines 164-239): constructor,
handle type, `iface()`, methods, property accessors, signals. -/
def renderIfaceBody (pfxs : List String) (i : token.Interface) : String :=
  "\n// " ++ ifaceNewType pfxs i ++ " creates and allocates " ++ i.name ++ ".\nfunc "
  ++ ifaceNewType pfxs i ++ "(object dbus.BusObject) *" ++ ifaceType pfxs i ++ " \x7b\n\treturn &"
  ++ ifaceType pfxs i ++ "\x7bobject\x7d\n\x7d\n\n"
  ++ "// " ++ ifaceType pfxs i ++ " implements " ++ i.name ++ " D-Bus interface."
  ++ renderAnnots i.annotations ++ "\n"
  ++ "type " ++ ifaceType pfxs i ++ " struct \x7b\n\tobject dbus.BusObject\n\x7d\n\n"
  ++ "// iface implements the Interface interface.\nfunc (o *" ++ ifaceType pfxs i
  ++ ") iface() string \x7b\n\treturn " ++ ifaceNameConst pfxs i ++ "\n\x7d\n"
  ++ String.join (i.methods.map fun m => renderMethod pfxs i m)
  ++ String.join (i.properties.map fun p =>
      (if propNeedsGet i p then renderPropGet pfxs i p else "")
      ++ (if propNeedsSet i p then renderPropSet pfxs i p else ""))
  ++ String.join (i.signals.map fun s => renderSignalDecl pfxs i s)

/-- The full `srcTemplate` expansion (printer.go lines 55-239) for the
already-prepared interface list.  Go's `text/template` whitespace
trimming is reproduced only approximately; every claim below depends on
which fragments appear and on their order, not on the exact blanks. -/
def render (p : Printer) (ifaces : List token.Interface) : String :=
  "// Code generated by dbus-codegen-go. DO NOT EDIT.\n//\n"
  ++ String.join (ifaces.map renderDocIface)
  ++ renderPrelude p.pkgName
  ++ renderLookupInterface p.prefixes ifaces
  ++ renderSignalIfaceDecl
  ++ renderLookupSignal p.pkgName p.prefixes ifaces
  ++ renderAddMatchRule
  ++ renderNameConsts p.prefixes ifaces
  ++ String.join (ifaces.map fun i => renderIfaceBody p.prefixes i)

/-- printer.go `Print` (lines 247-306).  `goParse` stands for
`go/parser.ParseFile` (external toolchain; `.error e` is its error) and
`goFormat` for `go/format.Node`; both are pure text functions.  The
returned pair is (what `Print` returns or writes to `out`, the contents
of the caller's `ifaces` slice after the call — `prepareIfaces` sorts it
in place, but only after the two validation checks have passed). -/
def Print (goParse : String → Except String Unit) (goFormat : String → String)
    (p : Printer) (ifaces : List token.Interface) :
    Except String String × List token.Interface :=
  if !identRegexpMatch p.pkgName then (.error "package name is not valid", ifaces)
  else if ifaces.length = 0 then (.error "no interfaces given", ifaces)
  else
    let sorted := prepareIfaces ifaces
    let buf := render p sorted
    match goParse buf with
    | .error e => (.error e, sorted)
    | .ok _ => if p.gofmt then (.ok (goFormat buf), sorted) else (.ok buf, sorted)

end printer

namespace dbusgen

/-- arg.go `keywords` (lines 31-37). -/
def keywords : List String :=
  ["break", "default", "func", "interface", "select",
   "case", "defer", "go", "map", "struct",
   "chan", "else", "goto", "package", "switch",
   "const", "fallthrough", "if", "range", "type",
   "continue", "for", "import", "return", "var"]

/-- arg.go `isKeyword` (lines 39-46). -/
def isKeyword (s : String) : Bool :=
  keywords.contains s

/-- Scan implementing arg.go's `varRegexp.ReplaceAllStringFunc` for
`varRegexp = _([a-zA-Z0-9])` (single underscore, line 9) with replacement
`strings.Title(s[1:])` (line 20): each non-overlapping `_` followed by an
ASCII alphanumeric is replaced by that character upper-cased. -/
def varReplaceSingle : List Char → List Char
  | [] => []
  | [c] => [c]
  | c :: d :: rest =>
    if c = '_' && printer.isAlnum d then d.toUpper :: varReplaceSingle rest
    else c :: varReplaceSingle (d :: rest)

/-- The name computation of arg.go `newArg` (lines 11-24); the signature
argument only feeds the [elided] `newSig` call, so the derived name is
modelled on its own.  Note the keyword test runs on the raw identifier,
before camel-casing. -/
def newArgName (identifier : String) (pfx : String) (i : Nat) : String :=
  match identifier.data with
  | [] => pfx ++ Nat.repr i
  | c :: rest =>
    if isKeyword identifier then pfx ++ gostrings.title identifier
    else ⟨c.toLower :: varReplaceSingle rest⟩

end dbusgen

namespace cmd

/-- main.go `merge` (lines 190-204).  The Go loop appends to `curr` while
also scanning `curr` for the duplicate check, so interfaces appended from
`next` take part in the deduplication of later `next` entries. -/
def merge : List token.Interface → List token.Interface → List token.Interface
  | curr, [] => curr
  | curr, ifn :: rest =>
    if curr.any fun ifc => ifc.name = ifn.name then merge curr rest
    else merge (curr ++ [ifn]) rest

/-- main.go `includes` (lines 206-213). -/
def includes (ss : List String) (s : String) : Bool :=
  ss.contains s

end cmd

-- Sanity checks.
example : dbusgen.newArgName "foo_bar" "v" 0 = "fooBar" := by decide
example : dbusgen.newArgName "foo__bar" "v" 0 = "foo_Bar" := by decide
example : dbusgen.newArgName "type" "v" 0 = "vType" := by decide
example : dbusgen.newArgName "Type" "v" 0 = "type" := by decide
example : dbusgen.newArgName "" "in" 2 = "in2" := by decide
example :
    cmd.merge [⟨"a", [], [], [], []⟩] [⟨"a", [], [], [], [⟨"x", "y"⟩]⟩, ⟨"b", [], [], [], []⟩]
      = [⟨"a", [], [], [], []⟩, ⟨"b", [], [], [], []⟩] := by decide

namespace cmd

/-- The elements `merge` appends: those of `next` whose name occurs
neither in `curr` nor in an earlier kept element of `next` (the Go loop
appends to the same slice it scans for duplicates). -/
def mergeKeep (curr : List token.Interface) : List token.Interface → List token.Interface
  | [] => []
  | ifn :: rest =>
    if curr.any fun ifc => ifc.name = ifn.name then mergeKeep curr rest
    else ifn :: mergeKeep (curr ++ [ifn]) rest

theorem merge_eq_append_mergeKeep (next curr : List token.Interface) :
    merge curr next = curr ++ mergeKeep curr next := by
  induction next generalizing curr with
  | nil => simp [merge, mergeKeep]
  | cons ifn rest ih =>
    by_cases h : (curr.any fun ifc => ifc.name = ifn.name) = true
    · simp [merge, mergeKeep, h, ih curr]
    · simp only [merge, mergeKeep, h, if_neg, Bool.not_eq_true, ite_false]
      rw [ih (curr ++ [ifn]), List.append_assoc]
      rfl

theorem mem_mergeKeep (next : List token.Interface) :
    ∀ (curr : List token.Interface) (x : token.Interface),
      x ∈ mergeKeep curr next → x ∈ next ∧ ∀ ifc ∈ curr, ifc.name ≠ x.name := by
  induction next with
  | nil => intro curr x hx; simp [mergeKeep] at hx
  | cons ifn rest ih =>
    intro curr x hx
    by_cases h : (curr.any fun ifc => ifc.name = ifn.name) = true
    · rw [mergeKeep, if_pos h] at hx
      obtain ⟨h1, h2⟩ := ih curr x hx
      exact ⟨List.mem_cons_of_mem _ h1, h2⟩
    · rw [mergeKeep, if_neg h] at hx
      rcases List.mem_cons.mp hx with rfl | hx2
      · refine ⟨List.mem_cons_self _ _, fun ifc hc => ?_⟩
        intro heq
        exact h (List.any_eq_true.mpr ⟨ifc, hc, by simp [heq]⟩)
      · obtain ⟨h1, h2⟩ := ih (curr ++ [ifn]) x hx2
        exact ⟨List.mem_cons_of_mem _ h1, fun ifc hc => h2 ifc (by simp [hc])⟩

theorem filter_mergeKeep_of_mem (next : List token.Interface) (curr : List token.Interface)
    (n : String) (h : ∃ ifc ∈ curr, ifc.name = n) :
    (mergeKeep curr next).filter (fun i => i.name == n) = [] := by
  rw [List.filter_eq_nil_iff]
  intro x hx
  obtain ⟨-, h2⟩ := mem_mergeKeep next curr x hx
  obtain ⟨ifc, hc, rfl⟩ := h
  simpa using fun hxn => h2 ifc hc hxn.symm

theorem filter_mergeKeep_of_not_mem (next : List token.Interface) :
    ∀ (curr : List token.Interface) (n : String), (∀ ifc ∈ curr, ifc.name ≠ n) →
      (mergeKeep curr next).filter (fun i => i.name == n)
        = (next.filter (fun i => i.name == n)).take 1 := by
  induction next with
  | nil => intro curr n _; simp [mergeKeep]
  | cons ifn rest ih =>
    intro curr n hfree
    by_cases h : (curr.any fun ifc => ifc.name = ifn.name) = true
    · rw [mergeKeep, if_pos h]
      have hne : ifn.name ≠ n := by
        obtain ⟨ifc, hc, he⟩ := List.any_eq_true.mp h
        intro hn
        exact hfree ifc hc (by simpa [hn] using he)
      rw [List.filter_cons_of_neg (by simpa using hne), ih curr n hfree]
    · rw [mergeKeep, if_neg h]
      by_cases hn : ifn.name = n
      · rw [List.filter_cons_of_pos (by simpa using hn),
          List.filter_cons_of_pos (by simpa using hn),
          filter_mergeKeep_of_mem rest (curr ++ [ifn]) n ⟨ifn, by simp, hn⟩]
        simp
      · rw [List.filter_cons_of_neg (by simpa using hn),
          List.filter_cons_of_neg (by simpa using hn)]
        exact ih (curr ++ [ifn]) n (by
          intro ifc hc
          rcases List.mem_append.mp hc with hc1 | hc2
          · exact hfree ifc hc1
          · simp at hc2; simp [hc2, hn])

end cmd

/-- C2 (counterexample): the claim predicts that `merge` appends every
incoming interface whose name is absent from the existing sequence; with
`existing = []` and two incoming interfaces that share a name, that
prediction is `[foo, foo2]`, but `merge` keeps only the first. -/
theorem C2_merge_counterexample :
    cmd.merge [] [⟨"org.example.Foo", [], [], [], []⟩,
                  ⟨"org.example.Foo", [], [], [], [⟨"a", "b"⟩]⟩]
        = [⟨"org.example.Foo", [], [], [], []⟩]
    ∧ List.filter
        (fun ifn => !(List.any ([] : List token.Interface) fun ifc => ifc.name = ifn.name))
        ([⟨"org.example.Foo", [], [], [], []⟩,
          ⟨"org.example.Foo", [], [], [], [⟨"a", "b"⟩]⟩] : List token.Interface)
        = [⟨"org.example.Foo", [], [], [], []⟩, ⟨"org.example.Foo", [], [], [], [⟨"a", "b"⟩]⟩]
    ∧ ([⟨"org.example.Foo", [], [], [], []⟩] : List token.Interface)
        ≠ [⟨"org.example.Foo", [], [], [], []⟩, ⟨"org.example.Foo", [], [], [], [⟨"a", "b"⟩]⟩] := by
  refine ⟨by decide, by decide, by decide⟩

/-- C2 (amended): `merge existing incoming` returns `existing` unchanged,
followed by exactly those incoming interfaces whose name occurs neither
in `existing` nor in an earlier appended incoming interface, in their
incoming order; when some existing interface bears a name, the result's
interfaces of that name are exactly the existing ones (first-passed
sequence wins); when no existing interface bears a name, the result keeps
exactly the first incoming interface of that name; `merge` never removes
or field-modifies any interface. -/
theorem C2_merge_spec (curr next : List token.Interface) :
    cmd.merge curr next = curr ++ cmd.mergeKeep curr next
    ∧ (∀ x ∈ cmd.mergeKeep curr next, x ∈ next ∧ ∀ ifc ∈ curr, ifc.name ≠ x.name)
    ∧ (∀ n : String, (∃ ifc ∈ curr, ifc.name = n) →
        (cmd.merge curr next).filter (fun i => i.name == n)
          = curr.filter (fun i => i.name == n))
    ∧ (∀ n : String, (∀ ifc ∈ curr, ifc.name ≠ n) →
        (cmd.merge curr next).filter (fun i => i.name == n)
          = (next.filter (fun i => i.name == n)).take 1) := by
  refine ⟨cmd.merge_eq_append_mergeKeep next curr,
    fun x hx => cmd.mem_mergeKeep next curr x hx, ?_, ?_⟩
  · intro n hn
    rw [cmd.merge_eq_append_mergeKeep next curr, List.filter_append,
      cmd.filter_mergeKeep_of_mem next curr n hn, List.append_nil]
  · intro n hn
    rw [cmd.merge_eq_append_mergeKeep next curr, List.filter_append,
      cmd.filter_mergeKeep_of_not_mem next curr n hn,
      List.filter_eq_nil_iff.mpr (by
        intro ifc hc
        simpa using hn ifc hc)]
    simp

/-- C2 (witness): the amended statement evaluated on two concrete
sequences that share the name `"org.example.Foo"`. -/
theorem C2_merge_spec_witness :
    (∃ ifc ∈ [(⟨"org.example.Foo", [], [], [], []⟩ : token.Interface)],
        ifc.name = "org.example.Foo")
    ∧ (cmd.merge [⟨"org.example.Foo", [], [], [], []⟩]
          [⟨"org.example.Foo", [], [], [], [⟨"a", "b"⟩]⟩, ⟨"org.example.Bar", [], [], [], []⟩]).filter
        (fun i => i.name == "org.example.Foo")
        = [⟨"org.example.Foo", [], [], [], []⟩] := by
  refine ⟨⟨⟨"org.example.Foo", [], [], [], []⟩, by simp, rfl⟩, ?_⟩
  rw [(C2_merge_spec [⟨"org.example.Foo", [], [], [], []⟩]
      [⟨"org.example.Foo", [], [], [], [⟨"a", "b"⟩]⟩,
       ⟨"org.example.Bar", [], [], [], []⟩]).2.2.1
    "org.example.Foo" ⟨⟨"org.example.Foo", [], [], [], []⟩, by simp, rfl⟩]
  decide

/-- C7 (counterexample): a readable property `x` (derived getter name
`GetX`) next to a method with raw name `getX`, whose *derived* name is
also `GetX`.  The claim predicts no getter; `propNeedsGet` nevertheless
reports `true`, because the code compares raw method names against the
derived accessor name. -/
theorem C7_accessor_counterexample :
    printer.propNeedsGet
        ⟨"org.example.Foo", [⟨"getX", [], [], []⟩], [⟨"x", ⟨"", "int32"⟩, true, false, []⟩], [], []⟩
        ⟨"x", ⟨"", "int32"⟩, true, false, []⟩ = true
    ∧ (⟨"x", ⟨"", "int32"⟩, true, false, []⟩ : token.Property).read = true
    ∧ printer.methodType ⟨"getX", [], [], []⟩
        = printer.propGetType ⟨"x", ⟨"", "int32"⟩, true, false, []⟩
    ∧ (⟨"getX", [], [], []⟩ : token.Method)
        ∈ (⟨"org.example.Foo", [⟨"getX", [], [], []⟩],
            [⟨"x", ⟨"", "int32"⟩, true, false, []⟩], [], []⟩ : token.Interface).methods := by
  exact ⟨by decide, by decide, by decide, by decide⟩

/-- C7 (amended): a getter is synthesized iff the property is readable
and no method's *raw* name equals the derived getter name
(`"Get" ++ Title(propName)`); a setter iff writable and no method's raw
name equals the derived setter name.  (Methods whose *derived* name
collides with the accessor, such as `getX` vs `GetX`, do not suppress
the accessor.) -/
theorem C7_accessor_rule (iface : token.Interface) (p : token.Property) :
    printer.propNeedsGet iface p
      = (p.read && !(iface.methods.any fun m => m.name = printer.propGetType p))
    ∧ printer.propNeedsSet iface p
      = (p.write && !(iface.methods.any fun m => m.name = printer.propSetType p)) := by
  constructor
  · cases hr : p.read <;>
      simp [printer.propNeedsGet, printer.propNeedsAccessor, hr]
  · cases hw : p.write <;>
      simp [printer.propNeedsSet, printer.propNeedsAccessor, hw]

/-- C6 (counterexample): with configured prefix `"example"`, which is
*not* a leading prefix of `"org.example.Foo"`, the claim predicts no
removal (result `"Org_Example_Foo"`), but `ifaceType` matches the prefix
as a substring and strips through it, yielding `"Foo"`. -/
theorem C6_ifaceType_counterexample :
    printer.ifaceType ["example"] ⟨"org.example.Foo", [], [], [], []⟩ = "Foo"
    ∧ printer.ifaceType [] ⟨"org.example.Foo", [], [], [], []⟩ = "Org_Example_Foo"
    ∧ ("Foo" : String) ≠ "Org_Example_Foo" := by
  exact ⟨by decide, by decide, by decide⟩

/-- All configured prefixes are nonempty and miss the name: no removal,
no panic. -/
theorem stripPfxChecked_of_all_none (name : List Char) :
    ∀ ps : List String,
      (∀ p ∈ ps, p.data ≠ [] ∧ printer.indexOfSub 0 name (printer.trimDot p.data) = none) →
      printer.stripPfxChecked ps name = some name := by
  intro ps
  induction ps with
  | nil => intro _; rfl
  | cons p rest ih =>
    intro h
    obtain ⟨hp0, hpi⟩ := h p (List.mem_cons_self _ _)
    rw [printer.stripPfxChecked, if_neg (by simpa [List.isEmpty_iff] using hp0)]
    simp only [hpi]
    exact ih fun q hq => h q (List.mem_cons_of_mem _ hq)

/-- C6 (amended): the prefixes are checked in list order; an empty
configured prefix panics immediately (index out of range at printer.go
line 336); otherwise the first prefix (after trimming one trailing dot)
that occurs as a *substring* of the interface name cuts the name past
the occurrence plus one following character and stops the scan — when
the occurrence reaches the end of the name there is no such character
and the slice at printer.go line 340 panics; in particular, when the
trimmed prefix leads the name and is followed by a dot, exactly the
prefix and its dot are removed and the remainder is preserved; a
prefix that occurs nowhere causes no removal; and on every
non-panicking run the (possibly cut) name is then camel-cased. -/
theorem C6_ifaceType_spec (p : String) (ps : List String) (name tail : List Char)
    (iface : token.Interface) :
    (p.data ≠ [] →
      printer.stripPfxChecked (p :: ps) (printer.trimDot p.data ++ '.' :: tail) = some tail)
    ∧ (∀ i : Nat, p.data ≠ [] →
        printer.indexOfSub 0 name (printer.trimDot p.data) = some i →
        i + (printer.trimDot p.data).length + 1 ≤ name.length →
        printer.stripPfxChecked (p :: ps) name
          = some (name.drop (i + (printer.trimDot p.data).length + 1)))
    ∧ (∀ i : Nat, p.data ≠ [] →
        printer.indexOfSub 0 name (printer.trimDot p.data) = some i →
        name.length < i + (printer.trimDot p.data).length + 1 →
        printer.stripPfxChecked (p :: ps) name = none)
    ∧ (p.data = [] → printer.stripPfxChecked (p :: ps) name = none)
    ∧ (p.data ≠ [] → printer.indexOfSub 0 name (printer.trimDot p.data) = none →
        printer.stripPfxChecked (p :: ps) name = printer.stripPfxChecked ps name)
    ∧ ((∀ q ∈ ps, q.data ≠ [] ∧ printer.indexOfSub 0 name (printer.trimDot q.data) = none) →
        printer.stripPfxChecked ps name = some name)
    ∧ (∀ r : List Char, printer.stripPfxChecked ps iface.name.data = some r →
        printer.ifaceType ps iface
          = printer.ifaceType [] { iface with name := ⟨r⟩ }) := by
  refine ⟨?_, ?_, ?_, ?_, ?_, stripPfxChecked_of_all_none name ps, ?_⟩
  · intro hp0
    have hpre : (printer.trimDot p.data).isPrefixOf
        (printer.trimDot p.data ++ '.' :: tail) = true := by
      simp [List.isPrefixOf_iff_prefix]
    have h0 : printer.indexOfSub 0 (printer.trimDot p.data ++ '.' :: tail)
        (printer.trimDot p.data) = some 0 := by
      rw [printer.indexOfSub.eq_def, if_pos hpre]
    rw [printer.stripPfxChecked, if_neg (by simpa [List.isEmpty_iff] using hp0)]
    simp only [h0, if_pos]
    rw [if_pos (by simp)]
    rw [show printer.trimDot p.data ++ '.' :: tail
        = (printer.trimDot p.data ++ ['.']) ++ tail by simp]
    have hlen : (printer.trimDot p.data ++ ['.']).length
        = 0 + (printer.trimDot p.data).length + 1 := by
      simp [Nat.add_comm]
    rw [List.drop_left' hlen]
  · intro i hp0 hi hb
    rw [printer.stripPfxChecked, if_neg (by simpa [List.isEmpty_iff] using hp0)]
    simp only [hi]
    rw [if_pos hb]
  · intro i hp0 hi hb
    rw [printer.stripPfxChecked, if_neg (by simpa [List.isEmpty_iff] using hp0)]
    simp only [hi]
    rw [if_neg (by omega)]
  · intro hp0
    rw [printer.stripPfxChecked, if_pos (by simpa [List.isEmpty_iff] using hp0)]
  · intro hp0 hi
    rw [printer.stripPfxChecked, if_neg (by simpa [List.isEmpty_iff] using hp0)]
    simp only [hi]
  · intro r hr
    have hs := printer.stripPfx_agree ps iface.name.data r hr
    simp [printer.ifaceType, printer.stripPfx, hs]

/-- C6 (witness): the amended statement evaluated at the configured
prefix `"org.example."` against `"org.example.Foo"` (leading-match
conjunct), at prefix `"example"` against `"org.example.Foo"`
(substring-match conjunct, occurrence index 4, in range 4+7+1 ≤ 15),
and at prefix `"Foo"` against `"org.example.Foo"` (occurrence index 12
reaching the end of the name, 15 < 12+3+1: the run Go aborts with a
slice-out-of-range panic). -/
theorem C6_ifaceType_spec_witness :
    printer.stripPfxChecked ["org.example."]
        (printer.trimDot "org.example.".data ++ '.' :: "Foo".data) = some "Foo".data
    ∧ printer.stripPfxChecked ["example"] "org.example.Foo".data
        = some ("org.example.Foo".data.drop (4 + (printer.trimDot "example".data).length + 1))
    ∧ printer.stripPfxChecked ["Foo"] "org.example.Foo".data = none := by
  refine ⟨(C6_ifaceType_spec "org.example." [] [] "Foo".data
      ⟨"", [], [], [], []⟩).1 (by decide),
    (C6_ifaceType_spec "example" [] "org.example.Foo".data []
      ⟨"", [], [], [], []⟩).2.1 4 (by decide) (by decide) (by decide),
    (C6_ifaceType_spec "Foo" [] "org.example.Foo".data []
      ⟨"", [], [], [], []⟩).2.2.1 12 (by decide) (by decide) (by decide)⟩

/-- C3 (confirmed): `Print` rejects an illegal package name (such as one
containing a space) and an empty interface list, in both cases returning
the error with the caller's slice untouched, before any rendering. -/
theorem C3_print_validation (gp : String → Except String Unit) (gf : String → String)
    (p : printer.Printer) (ifaces : List token.Interface) :
    (printer.identRegexpMatch p.pkgName = false →
      printer.Print gp gf p ifaces = (.error "package name is not valid", ifaces))
    ∧ (printer.identRegexpMatch p.pkgName = true → ifaces = [] →
      printer.Print gp gf p ifaces = (.error "no interfaces given", ifaces))
    ∧ printer.identRegexpMatch "my pkg" = false := by
  refine ⟨fun h => ?_, fun h1 h2 => ?_, by decide⟩
  · simp [printer.Print, h]
  · simp [printer.Print, h1, h2]

/-- C3 (witness): the validation failures at the concrete package name
`"my pkg"` and at the concrete empty input. -/
theorem C3_print_validation_witness :
    printer.Print (fun _ => .ok ()) (fun s => s) ⟨"my pkg", true, []⟩
        [⟨"org.example.Foo", [], [], [], []⟩]
      = (.error "package name is not valid", [⟨"org.example.Foo", [], [], [], []⟩])
    ∧ printer.Print (fun _ => .ok ()) (fun s => s) ⟨"dbusgen", true, []⟩ []
      = (.error "no interfaces given", ([] : List token.Interface)) := by
  constructor
  · exact (C3_print_validation (fun _ => .ok ()) (fun s => s) ⟨"my pkg", true, []⟩
      [⟨"org.example.Foo", [], [], [], []⟩]).1 (by decide)
  · exact (C3_print_validation (fun _ => .ok ()) (fun s => s) ⟨"dbusgen", true, []⟩ []).2.1
      (by decide) rfl

/-- C9 (counterexample): even with gofmt disabled, `Print` still runs the
rendered text through the host-language parser and fails the run when it
rejects — here the external parser (a parameter of the model) returns the
kind of error `go/parser.ParseFile` produces on malformed output, and
`Print` surfaces it instead of writing the raw text through. -/
theorem C9_gofmt_counterexample :
    (printer.Print (fun _ => .error "expected type, found newline") (fun s => s)
        ⟨"dbusgen", false, []⟩ [⟨"org.example.Foo", [], [], [], []⟩]).1
      = .error "expected type, found newline" := by
  rfl

/-- C9 (amended): with gofmt disabled (and the two input validations
passing), `Print` still runs the emission validator on the rendered
text; when the validator accepts, the raw unformatted render is written
through byte-identically (the formatter is never applied); when the
validator rejects, `Print` fails with its error. -/
theorem C9_gofmt_off (gp : String → Except String Unit) (gf : String → String)
    (p : printer.Printer) (ifaces : List token.Interface)
    (h1 : p.gofmt = false) (h2 : printer.identRegexpMatch p.pkgName = true)
    (h3 : ifaces ≠ []) :
    (gp (printer.render p (printer.prepareIfaces ifaces)) = .ok () →
      (printer.Print gp gf p ifaces).1
        = .ok (printer.render p (printer.prepareIfaces ifaces)))
    ∧ (∀ e, gp (printer.render p (printer.prepareIfaces ifaces)) = .error e →
      (printer.Print gp gf p ifaces).1 = .error e) := by
  have hlen : ¬ifaces.length = 0 := by
    simpa [List.length_eq_zero] using h3
  constructor
  · intro hok
    simp [printer.Print, h1, h2, hlen, hok]
  · intro e herr
    simp [printer.Print, h1, h2, hlen, herr]

/-- C9 (witness): the amended statement at a concrete interface with an
accepting parser. -/
theorem C9_gofmt_off_witness :
    (printer.Print (fun _ => .ok ()) (fun s => s) ⟨"dbusgen", false, []⟩
        [⟨"org.example.Foo", [], [], [], []⟩]).1
      = .ok (printer.render ⟨"dbusgen", false, []⟩
          (printer.prepareIfaces [⟨"org.example.Foo", [], [], [], []⟩])) := by
  exact (C9_gofmt_off (fun _ => .ok ()) (fun s => s) ⟨"dbusgen", false, []⟩
    [⟨"org.example.Foo", [], [], [], []⟩] rfl (by decide) (by decide)).1 rfl

/-- C8 (counterexample): `prepareIfaces` sorts the caller's slice in
place, so after `Print` returns, the two interfaces no longer appear in
their pre-call order. -/
theorem C8_immutability_counterexample :
    (printer.Print (fun _ => .ok ()) (fun s => s) ⟨"dbusgen", true, []⟩
        [⟨"b", [], [], [], []⟩, ⟨"a", [], [], [], []⟩]).2
      = [⟨"a", [], [], [], []⟩, ⟨"b", [], [], [], []⟩]
    ∧ ([⟨"a", [], [], [], []⟩, ⟨"b", [], [], [], []⟩] : List token.Interface)
      ≠ [⟨"b", [], [], [], []⟩, ⟨"a", [], [], [], []⟩] := by
  exact ⟨by decide, by decide⟩

/-- C8 (amended): `Print` never adds, removes or field-modifies an
entity, but it does reorder: the caller's slice after the call is either
untouched (when a validation check fails first) or equal to
`prepareIfaces` of the input, which is a permutation of the input
interfaces in which each interface keeps its name and annotations and
has its method/property/signal lists permuted (sorted) in place. -/
theorem C8_print_state (gp : String → Except String Unit) (gf : String → String)
    (p : printer.Printer) (ifaces : List token.Interface) :
    ((printer.Print gp gf p ifaces).2 = ifaces
      ∨ (printer.Print gp gf p ifaces).2 = printer.prepareIfaces ifaces)
    ∧ ∃ l, ifaces.Perm l
        ∧ List.Forall₂ (fun a b : token.Interface =>
            b.name = a.name ∧ b.methods.Perm a.methods ∧ b.properties.Perm a.properties
            ∧ b.signals.Perm a.signals ∧ b.annotations = a.annotations)
          l (printer.prepareIfaces ifaces) := by
  constructor
  · by_cases h1 : printer.identRegexpMatch p.pkgName = true
    · by_cases h2 : ifaces.length = 0
      · left; simp [printer.Print, h1, h2]
      · right
        simp only [printer.Print, h1, Bool.not_true, Bool.false_eq_true, if_false, h2, if_neg]
        cases gp (printer.render p (printer.prepareIfaces ifaces)) with
        | error e => rfl
        | ok u => cases p.gofmt <;> rfl
    · left
      have h1f : printer.identRegexpMatch p.pkgName = false := by
        simpa using h1
      simp [printer.Print, h1f]
  · refine ⟨List.insertionSort (printer.keyLE token.Interface.name) ifaces,
      (List.perm_insertionSort _ ifaces).symm, ?_⟩
    rw [printer.prepareIfaces]
    refine List.forall₂_map_right_iff.mpr (List.forall₂_same.mpr ?_)
    intro a _
    exact ⟨rfl, List.perm_insertionSort _ _, List.perm_insertionSort _ _,
      List.perm_insertionSort _ _, rfl⟩

namespace asciichar

/-! ASCII character facts used to reason about the identifier derivers.
Everything is reduced to `Char.toNat` so that `omega` can close the
range arguments. -/

theorem uint32_ofNat_le_iff {m : Nat} (n : UInt32) (h : m < UInt32.size) :
    (UInt32.ofNat m ≤ n) ↔ m ≤ n.toNat := by
  simp [UInt32.le_def, BitVec.le_def, UInt32.toNat, UInt32.toBitVec_eq_of_lt h]

theorem uint32_le_ofNat_iff {m : Nat} (n : UInt32) (h : m < UInt32.size) :
    (n ≤ UInt32.ofNat m) ↔ n.toNat ≤ m := by
  simp [UInt32.le_def, BitVec.le_def, UInt32.toNat, UInt32.toBitVec_eq_of_lt h]

theorem uint32_le_toNat (a b : UInt32) : a ≤ b ↔ a.toNat ≤ b.toNat := by
  simp [UInt32.le_def, BitVec.le_def, UInt32.toNat]

theorem char_le_toNat {c d : Char} : c ≤ d ↔ c.toNat ≤ d.toNat := by
  rw [Char.le_def]
  exact uint32_le_toNat c.val d.val

theorem isLower_toNat {c : Char} : c.isLower = true ↔ 97 ≤ c.toNat ∧ c.toNat ≤ 122 := by
  have h1 := uint32_ofNat_le_iff (m := 97) c.val (by decide)
  have h2 := uint32_le_ofNat_iff (m := 122) c.val (by decide)
  simp only [Char.isLower, ge_iff_le, Bool.and_eq_true, decide_eq_true_eq]
  exact and_congr h1 h2

theorem isUpper_toNat {c : Char} : c.isUpper = true ↔ 65 ≤ c.toNat ∧ c.toNat ≤ 90 := by
  have h1 := uint32_ofNat_le_iff (m := 65) c.val (by decide)
  have h2 := uint32_le_ofNat_iff (m := 90) c.val (by decide)
  simp only [Char.isUpper, ge_iff_le, Bool.and_eq_true, decide_eq_true_eq]
  exact and_congr h1 h2

theorem isDigit_toNat {c : Char} : c.isDigit = true ↔ 48 ≤ c.toNat ∧ c.toNat ≤ 57 := by
  have h1 := uint32_ofNat_le_iff (m := 48) c.val (by decide)
  have h2 := uint32_le_ofNat_iff (m := 57) c.val (by decide)
  simp only [Char.isDigit, ge_iff_le, Bool.and_eq_true, decide_eq_true_eq]
  exact and_congr h1 h2

theorem char_eq_toNat (c d : Char) : c = d ↔ c.toNat = d.toNat := by
  constructor
  · rintro rfl; rfl
  · intro h
    exact Char.ext (UInt32.ext h)

theorem char_toNat_ofNat_valid {n : Nat} (h : n.isValidChar) : (Char.ofNat n).toNat = n := by
  simp [Char.ofNat, h, Char.ofNatAux, Char.toNat, UInt32.toNat]

theorem toUpper_toNat (c : Char) :
    c.toUpper.toNat = if 97 ≤ c.toNat ∧ c.toNat ≤ 122 then c.toNat - 32 else c.toNat := by
  rw [Char.toUpper]
  by_cases h : 97 ≤ c.toNat ∧ c.toNat ≤ 122
  · rw [if_pos ⟨h.1, h.2⟩, if_pos h]
    exact char_toNat_ofNat_valid (Or.inl (by omega))
  · rw [if_neg (fun hc => h ⟨hc.1, hc.2⟩), if_neg h]

theorem toLower_toNat (c : Char) :
    c.toLower.toNat = if 65 ≤ c.toNat ∧ c.toNat ≤ 90 then c.toNat + 32 else c.toNat := by
  rw [Char.toLower]
  by_cases h : 65 ≤ c.toNat ∧ c.toNat ≤ 90
  · rw [if_pos ⟨h.1, h.2⟩, if_pos h]
    exact char_toNat_ofNat_valid (Or.inl (by omega))
  · rw [if_neg (fun hc => h ⟨hc.1, hc.2⟩), if_neg h]

/-- The character class of Go identifier continuation characters
(restricted to ASCII): letters, digits, underscore. -/
def isIdentChar (c : Char) : Bool :=
  c.isAlpha || c.isDigit || c = '_'

/-- The character class of Go identifier start characters (ASCII):
letters and underscore. -/
def isIdentStart (c : Char) : Bool :=
  c.isAlpha || c = '_'

theorem identChar_toNat {c : Char} : isIdentChar c = true ↔
    (48 ≤ c.toNat ∧ c.toNat ≤ 57) ∨ (65 ≤ c.toNat ∧ c.toNat ≤ 90)
    ∨ (97 ≤ c.toNat ∧ c.toNat ≤ 122) ∨ c.toNat = 95 := by
  simp only [isIdentChar, Char.isAlpha, Bool.or_eq_true, decide_eq_true_eq,
    isUpper_toNat, isLower_toNat, isDigit_toNat, char_eq_toNat c '_']
  constructor
  · intro h
    have h95 : ('_' : Char).toNat = 95 := rfl
    omega
  · intro h
    have h95 : ('_' : Char).toNat = 95 := rfl
    omega

theorem identStart_toNat {c : Char} : isIdentStart c = true ↔
    (65 ≤ c.toNat ∧ c.toNat ≤ 90) ∨ (97 ≤ c.toNat ∧ c.toNat ≤ 122) ∨ c.toNat = 95 := by
  simp only [isIdentStart, Char.isAlpha, Bool.or_eq_true, decide_eq_true_eq,
    isUpper_toNat, isLower_toNat, char_eq_toNat c '_']
  have h95 : ('_' : Char).toNat = 95 := rfl
  constructor <;> (intro h; omega)

theorem identChar_toUpper {c : Char} (h : isIdentChar c = true) :
    isIdentChar c.toUpper = true := by
  rw [identChar_toNat] at h
  rw [identChar_toNat, toUpper_toNat]
  by_cases hc : 97 ≤ c.toNat ∧ c.toNat ≤ 122
  · rw [if_pos hc]; omega
  · rw [if_neg hc]; omega

theorem identChar_toLower {c : Char} (h : isIdentChar c = true) :
    isIdentChar c.toLower = true := by
  rw [identChar_toNat] at h
  rw [identChar_toNat, toLower_toNat]
  by_cases hc : 65 ≤ c.toNat ∧ c.toNat ≤ 90
  · rw [if_pos hc]; omega
  · rw [if_neg hc]; omega

theorem identStart_toLower {c : Char} (h : isIdentStart c = true) :
    isIdentStart c.toLower = true := by
  rw [identStart_toNat] at h
  rw [identStart_toNat, toLower_toNat]
  by_cases hc : 65 ≤ c.toNat ∧ c.toNat ≤ 90
  · rw [if_pos hc]; omega
  · rw [if_neg hc]; omega

theorem identStart_toUpper {c : Char} (h : isIdentStart c = true) :
    isIdentStart c.toUpper = true := by
  rw [identStart_toNat] at h
  rw [identStart_toNat, toUpper_toNat]
  by_cases hc : 97 ≤ c.toNat ∧ c.toNat ≤ 122
  · rw [if_pos hc]; omega
  · rw [if_neg hc]; omega

theorem identStart_isIdentChar {c : Char} (h : isIdentStart c = true) :
    isIdentChar c = true := by
  rw [identStart_toNat] at h
  rw [identChar_toNat]
  omega

theorem digit_isIdentChar {c : Char} (h : c.isDigit = true) : isIdentChar c = true := by
  rw [isDigit_toNat] at h
  rw [identChar_toNat]
  omega

theorem lower_isIdentStart {c : Char} (h : c.isLower = true) : isIdentStart c = true := by
  rw [isLower_toNat] at h
  rw [identStart_toNat]
  omega

theorem lower_isIdentChar {c : Char} (h : c.isLower = true) : isIdentChar c = true := by
  rw [isLower_toNat] at h
  rw [identChar_toNat]
  omega

theorem digit_not_lower {c : Char} (h : c.isDigit = true) : c.isLower = false := by
  rw [isDigit_toNat] at h
  rw [← Bool.not_eq_true, isLower_toNat]
  omega

theorem toUpper_not_lower_of_alnumUnd {c : Char} (h : isIdentChar c = true) :
    c.toUpper.isLower = false := by
  rw [identChar_toNat] at h
  rw [← Bool.not_eq_true, isLower_toNat, toUpper_toNat]
  by_cases hc : 97 ≤ c.toNat ∧ c.toNat ≤ 122
  · rw [if_pos hc]; omega
  · rw [if_neg hc]; omega

theorem toUpper_digit_of_digit {c : Char} (h : c.isDigit = true) :
    c.toUpper.isDigit = true := by
  rw [isDigit_toNat] at h
  rw [isDigit_toNat, toUpper_toNat, if_neg (by omega)]
  omega

theorem toLower_eq_of_lower {c : Char} (h : c.isLower = true) : c.toLower = c := by
  rw [isLower_toNat] at h
  rw [char_eq_toNat, toLower_toNat, if_neg (by omega)]

theorem sep_of_identChar (c : Char) (h : isIdentChar c = true) :
    gostrings.isSeparator c = false := by
  rw [identChar_toNat] at h
  have hle : c.val ≤ 0x7F := by
    rw [uint32_le_toNat]
    show c.toNat ≤ (0x7F : UInt32).toNat
    have h7 : (0x7F : UInt32).toNat = 127 := rfl
    omega
  rw [gostrings.isSeparator, if_pos hle]
  simp only [Bool.not_eq_false', Bool.or_eq_true, Bool.and_eq_true, decide_eq_true_eq]
  have e0 : ('0' : Char).toNat = 48 := rfl
  have e9 : ('9' : Char).toNat = 57 := rfl
  have ea : ('a' : Char).toNat = 97 := rfl
  have ez : ('z' : Char).toNat = 122 := rfl
  have eA : ('A' : Char).toNat = 65 := rfl
  have eZ : ('Z' : Char).toNat = 90 := rfl
  rcases h with hd | hu | hl | he
  · exact Or.inl (Or.inl (Or.inl ⟨char_le_toNat.mpr (by omega), char_le_toNat.mpr (by omega)⟩))
  · exact Or.inl (Or.inr ⟨char_le_toNat.mpr (by omega), char_le_toNat.mpr (by omega)⟩)
  · exact Or.inl (Or.inl (Or.inr ⟨char_le_toNat.mpr (by omega), char_le_toNat.mpr (by omega)⟩))
  · exact Or.inr ((char_eq_toNat c '_').mpr (by rw [he]; rfl))

theorem sep_space : gostrings.isSeparator ' ' = true := by decide

end asciichar

/-- The claim side's notion of a syntactically legal Go identifier
(ASCII fragment of the Go spec grammar: a letter or underscore followed
by letters, digits and underscores). -/
def isGoIdentifier (s : String) : Bool :=
  match s.data with
  | [] => false
  | c :: rest => asciichar.isIdentStart c && rest.all asciichar.isIdentChar

theorem goKeywords_lower_nonempty :
    printer.goKeywords.all (fun k => !k.data.isEmpty && k.data.all Char.isLower) = true := by
  decide

theorem keyword_chars (s : String) (h : printer.isKeyword s = true) :
    s.data ≠ [] ∧ ∀ c ∈ s.data, c.isLower = true := by
  have hmem : s ∈ printer.goKeywords := by
    simpa [printer.isKeyword] using h
  have h2 := List.all_eq_true.mp goKeywords_lower_nonempty s hmem
  simp only [Bool.and_eq_true, Bool.not_eq_true'] at h2
  refine ⟨by simpa [List.isEmpty_iff] using h2.1, fun c hc => List.all_eq_true.mp h2.2 c hc⟩

theorem digitChar_isDigit {m : Nat} (h : m < 10) : (Nat.digitChar m).isDigit = true := by
  interval_cases m <;> decide

theorem toDigitsCore_digits :
    ∀ (fuel n : Nat) (acc : List Char), (∀ c ∈ acc, c.isDigit = true) →
      ∀ c ∈ Nat.toDigitsCore 10 fuel n acc, c.isDigit = true := by
  intro fuel
  induction fuel with
  | zero => intro n acc hacc c hc; exact hacc c hc
  | succ f ih =>
    intro n acc hacc c hc
    rw [Nat.toDigitsCore] at hc
    have hd : (Nat.digitChar (n % 10)).isDigit = true :=
      digitChar_isDigit (Nat.mod_lt _ (by omega))
    by_cases h0 : n / 10 = 0
    · rw [if_pos h0] at hc
      rcases List.mem_cons.mp hc with rfl | hmem
      · exact hd
      · exact hacc c hmem
    · rw [if_neg h0] at hc
      refine ih (n / 10) (Nat.digitChar (n % 10) :: acc) ?_ c hc
      intro d hdm
      rcases List.mem_cons.mp hdm with rfl | hmem
      · exact hd
      · exact hacc d hmem

theorem repr_digits (i : Nat) : ∀ c ∈ (Nat.repr i).data, c.isDigit = true := by
  intro c hc
  exact toDigitsCore_digits (i + 1) i [] (by simp) c hc

theorem toDigitsCore_length :
    ∀ (fuel n : Nat) (acc : List Char), acc.length ≤ (Nat.toDigitsCore 10 fuel n acc).length := by
  intro fuel
  induction fuel with
  | zero => intro n acc; rw [Nat.toDigitsCore]
  | succ f ih =>
    intro n acc
    rw [Nat.toDigitsCore]
    by_cases h0 : n / 10 = 0
    · rw [if_pos h0]; simp
    · rw [if_neg h0]
      calc acc.length ≤ (Nat.digitChar (n % 10) :: acc).length := by simp
        _ ≤ _ := ih (n / 10) _

theorem repr_ne_nil (i : Nat) : (Nat.repr i).data ≠ [] := by
  show Nat.toDigits 10 i ≠ []
  rw [Nat.toDigits, Nat.toDigitsCore]
  by_cases h0 : i / 10 = 0
  · rw [if_pos h0]; simp
  · rw [if_neg h0]
    intro hnil
    have := toDigitsCore_length i (i / 10) [Nat.digitChar (i % 10)]
    rw [hnil] at this
    simp at this

theorem varReplaceAux_ident (l : List Char) : ∀ n,
    (∀ c ∈ l, asciichar.isIdentChar c = true) →
    ∀ c ∈ printer.varReplaceAux n l, asciichar.isIdentChar c = true := by
  induction l with
  | nil =>
    intro n _ c hc
    rw [printer.varReplaceAux] at hc
    rw [List.eq_of_mem_replicate hc]
    decide
  | cons d rest ih =>
    intro n hl c hc
    have hd : asciichar.isIdentChar d = true := hl d (List.mem_cons_self _ _)
    have hrest : ∀ c ∈ rest, asciichar.isIdentChar c = true :=
      fun c hc => hl c (List.mem_cons_of_mem _ hc)
    rw [printer.varReplaceAux] at hc
    by_cases h1 : d = '_'
    · rw [if_pos h1] at hc
      exact ih (n + 1) hrest c hc
    · rw [if_neg h1] at hc
      by_cases h2 : printer.isAlnum d = true
      · rw [if_pos h2] at hc
        by_cases h3 : n = 0
        · rw [if_pos h3] at hc
          rcases List.mem_cons.mp hc with rfl | hm
          · exact hd
          · exact ih 0 hrest c hm
        · rw [if_neg h3] at hc
          rcases List.mem_cons.mp hc with rfl | hm
          · exact asciichar.identChar_toUpper hd
          · exact ih 0 hrest c hm
      · rw [if_neg h2] at hc
        rcases List.mem_append.mp hc with hm | hm
        · rw [List.eq_of_mem_replicate hm]; decide
        · rcases List.mem_cons.mp hm with rfl | hm2
          · exact hd
          · exact ih 0 hrest c hm2

theorem titleAux_of_no_sep (l : List Char) : ∀ prev,
    (∀ c ∈ l, asciichar.isIdentChar c = true) →
    gostrings.isSeparator prev = false → gostrings.titleAux prev l = l := by
  induction l with
  | nil => intro prev _ _; rfl
  | cons c rest ih =>
    intro prev hl hsep
    rw [gostrings.titleAux, if_neg (by simp [hsep])]
    rw [ih c (fun d hd => hl d (List.mem_cons_of_mem _ hd))
      (asciichar.sep_of_identChar c (hl c (List.mem_cons_self _ _)))]

theorem title_ident_data (c : Char) (rest : List Char)
    (h : ∀ d ∈ c :: rest, asciichar.isIdentChar d = true) :
    (gostrings.title ⟨c :: rest⟩).data = c.toUpper :: rest := by
  show (gostrings.titleAux ' ' (c :: rest)) = c.toUpper :: rest
  rw [gostrings.titleAux, if_pos (by simp [asciichar.sep_space])]
  rw [titleAux_of_no_sep rest c (fun d hd => h d (List.mem_cons_of_mem _ hd))
    (asciichar.sep_of_identChar c (h c (List.mem_cons_self _ _)))]

theorem not_keyword_of_mem_not_lower (s : String) (c : Char) (hc : c ∈ s.data)
    (hl : c.isLower = false) : printer.isKeyword s = false := by
  rw [← Bool.not_eq_true]
  intro h
  rw [(keyword_chars s h).2 c hc] at hl
  exact absurd hl (by decide)

theorem string_eq_mk_data {s : String} {l : List Char} (h : s.data = l) : s = ⟨l⟩ :=
  congrArg String.mk h

theorem isGoIdentifier_data (s : String) : isGoIdentifier s
    = match s.data with
      | [] => false
      | c :: rest => asciichar.isIdentStart c && rest.all asciichar.isIdentChar := rfl

theorem goIdent_of_append (pfx : String) (l : List Char) (hp0 : pfx.data ≠ [])
    (hp : ∀ c ∈ pfx.data, c.isLower = true)
    (hl : ∀ c ∈ l, asciichar.isIdentChar c = true) :
    isGoIdentifier (⟨pfx.data ++ l⟩ : String) = true := by
  obtain ⟨pc, prest, hpd⟩ := List.exists_cons_of_ne_nil hp0
  rw [isGoIdentifier_data]
  show (match pfx.data ++ l with
    | [] => false
    | c :: rest => asciichar.isIdentStart c && rest.all asciichar.isIdentChar) = true
  rw [hpd, List.cons_append]
  show (asciichar.isIdentStart pc && (prest ++ l).all asciichar.isIdentChar) = true
  rw [Bool.and_eq_true]
  refine ⟨asciichar.lower_isIdentStart
    (hp pc (by rw [hpd]; exact List.mem_cons_self _ _)), List.all_eq_true.mpr ?_⟩
  intro c hc
  rcases List.mem_append.mp hc with hm | hm
  · exact asciichar.lower_isIdentChar (hp c (by rw [hpd]; exact List.mem_cons_of_mem _ hm))
  · exact hl c hm

theorem title_data_of_ident (s : String) (h : Char) (t : List Char) (hdt : s.data = h :: t)
    (hident : ∀ d ∈ s.data, asciichar.isIdentChar d = true) :
    (gostrings.title s).data = h.toUpper :: t := by
  show gostrings.titleAux ' ' s.data = h.toUpper :: t
  rw [hdt] at hident ⊢
  rw [gostrings.titleAux, if_pos (by simp [asciichar.sep_space])]
  rw [titleAux_of_no_sep t h (fun d hd => hident d (List.mem_cons_of_mem _ hd))
    (asciichar.sep_of_identChar h (hident h (List.mem_cons_self _ _)))]

theorem goIdent_all_identChar (s : String) (h : isGoIdentifier s = true) :
    ∀ d ∈ s.data, asciichar.isIdentChar d = true := by
  intro d hd
  cases hdt : s.data with
  | nil => rw [hdt] at hd; simp at hd
  | cons c t =>
    rw [isGoIdentifier_data, hdt] at h
    rw [Bool.and_eq_true] at h
    obtain ⟨h1, h2⟩ := h
    rw [hdt] at hd
    rcases List.mem_cons.mp hd with rfl | hm
    · exact asciichar.identStart_isIdentChar h1
    · exact List.all_eq_true.mp h2 d hm

theorem title_preserves_goIdent (s : String) (h : isGoIdentifier s = true) :
    isGoIdentifier (gostrings.title s) = true := by
  cases hdt : s.data with
  | nil => rw [isGoIdentifier_data, hdt] at h; exact absurd h (by decide)
  | cons c t =>
    have hall := goIdent_all_identChar s h
    rw [isGoIdentifier_data, hdt] at h
    rw [Bool.and_eq_true] at h
    obtain ⟨h1, h2⟩ := h
    rw [isGoIdentifier_data, title_data_of_ident s c t hdt hall]
    show (asciichar.isIdentStart c.toUpper && t.all asciichar.isIdentChar) = true
    rw [Bool.and_eq_true]
    exact ⟨asciichar.identStart_toUpper h1, h2⟩

/-- The final keyword-avoidance step of `argName`: starting from a legal
identifier, the result is a legal non-keyword identifier provided the
role prefix is a nonempty lowercase word. -/
theorem keywordGuard_legal (pfx name2 : String)
    (hp0 : pfx.data ≠ []) (hp : ∀ c ∈ pfx.data, c.isLower = true)
    (hident : isGoIdentifier name2 = true) :
    isGoIdentifier
        (if printer.isKeyword name2 then pfx ++ gostrings.title name2 else name2) = true
    ∧ printer.isKeyword
        (if printer.isKeyword name2 then pfx ++ gostrings.title name2 else name2) = false := by
  by_cases hk : printer.isKeyword name2 = true
  · rw [if_pos hk]
    obtain ⟨hne, hlow⟩ := keyword_chars name2 hk
    obtain ⟨h, t, hdt⟩ := List.exists_cons_of_ne_nil hne
    have hid2 : ∀ d ∈ name2.data, asciichar.isIdentChar d = true :=
      fun d hd => asciichar.lower_isIdentChar (hlow d hd)
    have htitle := title_data_of_ident name2 h t hdt hid2
    have hh : h.isLower = true := hlow h (by rw [hdt]; exact List.mem_cons_self _ _)
    have heq : pfx ++ gostrings.title name2 = ⟨pfx.data ++ (h.toUpper :: t)⟩ :=
      string_eq_mk_data (by rw [String.data_append, htitle])
    constructor
    · rw [heq]
      refine goIdent_of_append pfx _ hp0 hp ?_
      intro c hc
      rcases List.mem_cons.mp hc with rfl | hm
      · exact asciichar.identChar_toUpper (asciichar.lower_isIdentChar hh)
      · exact hid2 c (by rw [hdt]; exact List.mem_cons_of_mem _ hm)
    · refine not_keyword_of_mem_not_lower _ h.toUpper ?_ ?_
      · rw [String.data_append, htitle]
        exact List.mem_append.mpr (Or.inr (List.mem_cons_self _ _))
      · exact asciichar.toUpper_not_lower_of_alnumUnd (asciichar.lower_isIdentChar hh)
  · rw [if_neg hk]
    exact ⟨hident, by simpa using hk⟩

/-- C5 (counterexample): `argName` performs no sanitization beyond the
underscore rewrite and the keyword check, so a raw argument name
containing a character that is not legal in a Go identifier (here a dot)
passes through verbatim and yields an illegal identifier. -/
theorem C5_argName_counterexample :
    printer.argName ⟨"foo.bar", "t"⟩ "v" 0 false = "foo.bar"
    ∧ isGoIdentifier "foo.bar" = false := by
  exact ⟨by decide, by decide⟩

/-- C5 (amended): for every raw argument name that is empty or is itself
a legal (ASCII) identifier — which is what D-Bus argument names are —
and every nonempty lowercase role prefix, `argName` never fails and its
output is a syntactically legal Go identifier that is not a reserved
word; raw names outside that domain (e.g. containing `.`) can produce
illegal identifiers. -/
theorem C5_argName_legal (a : token.Arg) (pfx : String) (i : Nat) (exported : Bool)
    (hname : a.name = "" ∨ isGoIdentifier a.name = true)
    (hp0 : pfx.data ≠ []) (hp : ∀ c ∈ pfx.data, c.isLower = true) :
    isGoIdentifier (printer.argName a pfx i exported) = true
    ∧ printer.isKeyword (printer.argName a pfx i exported) = false := by
  have hmain : ∀ name1 : String, isGoIdentifier name1 = true →
      isGoIdentifier
        (let name2 := if exported then gostrings.title name1 else name1
         if printer.isKeyword name2 then pfx ++ gostrings.title name2 else name2) = true
      ∧ printer.isKeyword
        (let name2 := if exported then gostrings.title name1 else name1
         if printer.isKeyword name2 then pfx ++ gostrings.title name2 else name2) = false := by
    intro name1 h1
    cases exported
    · simpa using keywordGuard_legal pfx name1 hp0 hp h1
    · simpa using keywordGuard_legal pfx (gostrings.title name1) hp0 hp
        (title_preserves_goIdent name1 h1)
  rcases hdc : a.name.data with _ | ⟨c, rest⟩
  · have hident1 : isGoIdentifier (pfx ++ Nat.repr i) = true := by
      rw [string_eq_mk_data (String.data_append pfx (Nat.repr i))]
      exact goIdent_of_append pfx _ hp0 hp
        (fun c hc => asciichar.digit_isIdentChar (repr_digits i c hc))
    simpa only [printer.argName, hdc] using hmain (pfx ++ Nat.repr i) hident1
  · have hgood : isGoIdentifier a.name = true := by
      rcases hname with he | hg
      · rw [he] at hdc
        exact absurd (show ([] : List Char) = c :: rest from hdc) (by simp)
      · exact hg
    rw [isGoIdentifier_data, hdc] at hgood
    rw [Bool.and_eq_true] at hgood
    obtain ⟨hstart, hall⟩ := hgood
    have hident1 : isGoIdentifier (⟨c.toLower :: printer.varReplace rest⟩ : String) = true := by
      rw [isGoIdentifier_data]
      show (asciichar.isIdentStart c.toLower
        && (printer.varReplace rest).all asciichar.isIdentChar) = true
      rw [Bool.and_eq_true]
      refine ⟨asciichar.identStart_toLower hstart, List.all_eq_true.mpr ?_⟩
      intro d hdm
      exact varReplaceAux_ident rest 0 (List.all_eq_true.mp hall) d hdm
    simpa only [printer.argName, hdc] using
      hmain (⟨c.toLower :: printer.varReplace rest⟩ : String) hident1

/-- C5 (witness): the amended statement at the raw name `"foo_bar"` with
role prefix `"v"`, and at the empty raw name with role prefix `"in"`. -/
theorem C5_argName_legal_witness :
    (isGoIdentifier (printer.argName ⟨"foo_bar", "t"⟩ "v" 0 false) = true
      ∧ printer.isKeyword (printer.argName ⟨"foo_bar", "t"⟩ "v" 0 false) = false)
    ∧ (isGoIdentifier (printer.argName ⟨"", "t"⟩ "in" 2 true) = true
      ∧ printer.isKeyword (printer.argName ⟨"", "t"⟩ "in" 2 true) = false) := by
  constructor
  · exact C5_argName_legal ⟨"foo_bar", "t"⟩ "v" 0 false (Or.inr (by decide))
      (by decide) (by decide)
  · exact C5_argName_legal ⟨"", "t"⟩ "in" 2 true (Or.inl rfl) (by decide) (by decide)

theorem varReplaceAux_replicate : ∀ (k n : Nat) (l : List Char),
    printer.varReplaceAux n (List.replicate k '_' ++ l) = printer.varReplaceAux (n + k) l := by
  intro k
  induction k with
  | zero => intro n l; rfl
  | succ m ih =>
    intro n l
    rw [List.replicate_succ, List.cons_append, printer.varReplaceAux, if_pos rfl, ih]
    congr 1
    omega

theorem varReplace_run (k : Nat) (d : Char) (rest : List Char)
    (hk : 0 < k) (hd : printer.isAlnum d = true) :
    printer.varReplace (List.replicate k '_' ++ d :: rest)
      = d.toUpper :: printer.varReplace rest := by
  rw [printer.varReplace, varReplaceAux_replicate k 0 (d :: rest)]
  have hdu : ¬d = '_' := by
    intro h
    rw [h] at hd
    exact absurd hd (by decide)
  rw [printer.varReplaceAux, if_neg hdu, if_pos hd, if_neg (by omega)]
  rfl

/-- C4 (confirmed): the rules of the spec's identifier deriver, checked
against `argName` — the empty-name positional rule with its `in2`
example, the underscore camel-casing rule with the `fooBar` example and
the collapse of consecutive separators (an underscore run followed by an
alphanumeric becomes that character upper-cased, the run deleted), the
general shape of the non-empty-name case, the reserved-word rule
(prefix + re-capitalization), and the export rule (first character
upper-cased, with no reserved-word collision possible). -/
theorem C4_argName_rules :
    printer.argName ⟨"", "t"⟩ "in" 2 false = "in2"
    ∧ printer.argName ⟨"foo_bar", "t"⟩ "v" 0 false = "fooBar"
    ∧ printer.argName ⟨"foo__bar", "t"⟩ "v" 0 false = "fooBar"
    ∧ (∀ (a : token.Arg) (pfx : String) (i : Nat), a.name = "" →
        printer.isKeyword (pfx ++ Nat.repr i) = false →
        printer.argName a pfx i false = pfx ++ Nat.repr i)
    ∧ (∀ (k : Nat) (d : Char) (rest : List Char), 0 < k → printer.isAlnum d = true →
        printer.varReplace (List.replicate k '_' ++ d :: rest)
          = d.toUpper :: printer.varReplace rest)
    ∧ (∀ (a : token.Arg) (pfx : String) (i : Nat) (c : Char) (rest : List Char),
        a.name.data = c :: rest →
        printer.isKeyword ⟨c.toLower :: printer.varReplace rest⟩ = false →
        printer.argName a pfx i false = ⟨c.toLower :: printer.varReplace rest⟩)
    ∧ (∀ (a : token.Arg) (pfx : String) (i : Nat) (c : Char) (rest : List Char),
        a.name.data = c :: rest →
        printer.isKeyword ⟨c.toLower :: printer.varReplace rest⟩ = true →
        printer.argName a pfx i false
          = pfx ++ gostrings.title ⟨c.toLower :: printer.varReplace rest⟩)
    ∧ (∀ (a : token.Arg) (pfx : String) (i : Nat) (c : Char) (rest : List Char),
        a.name.data = c :: rest → (∀ d ∈ a.name.data, asciichar.isIdentChar d = true) →
        printer.argName a pfx i true = ⟨c.toLower.toUpper :: printer.varReplace rest⟩) := by
  refine ⟨by decide, by decide, by decide, ?_, varReplace_run, ?_, ?_, ?_⟩
  · intro a pfx i he hk
    have hdc : a.name.data = [] := by rw [he]
    simp [printer.argName, hdc, hk]
  · intro a pfx i c rest hdc hk
    simp [printer.argName, hdc, hk]
  · intro a pfx i c rest hdc hk
    simp [printer.argName, hdc, hk]
  · intro a pfx i c rest hdc hident
    rw [hdc] at hident
    have hidc : asciichar.isIdentChar c = true := hident c (List.mem_cons_self _ _)
    have hall : ∀ d ∈ printer.varReplace rest, asciichar.isIdentChar d = true :=
      varReplaceAux_ident rest 0 (fun d hd => hident d (List.mem_cons_of_mem _ hd))
    have htitle : (gostrings.title ⟨c.toLower :: printer.varReplace rest⟩).data
        = c.toLower.toUpper :: printer.varReplace rest := by
      refine title_data_of_ident _ _ _ rfl ?_
      intro d hd
      rcases List.mem_cons.mp hd with rfl | hm
      · exact asciichar.identChar_toLower hidc
      · exact hall d hm
    have hkw : printer.isKeyword
        (gostrings.title ⟨c.toLower :: printer.varReplace rest⟩) = false := by
      refine not_keyword_of_mem_not_lower _ c.toLower.toUpper ?_ ?_
      · rw [htitle]; exact List.mem_cons_self _ _
      · exact asciichar.toUpper_not_lower_of_alnumUnd (asciichar.identChar_toLower hidc)
    simp only [printer.argName, hdc, if_pos, ite_true, hkw, Bool.false_eq_true, if_false]
    exact string_eq_mk_data htitle

/-- C4 (witness): the general conjuncts of the rule theorem evaluated at
the claim's own examples — `derive("", "in", 2, false)`,
`derive("foo_bar", "v", 0, false)`, a two-underscore run, the
reserved-word input `"type"`, and the exported variant of `"foo_bar"`. -/
theorem C4_argName_rules_witness :
    printer.argName ⟨"", "t"⟩ "in" 2 false = "in" ++ Nat.repr 2
    ∧ printer.varReplace (List.replicate 2 '_' ++ 'b' :: "ar".data)
        = 'b'.toUpper :: printer.varReplace "ar".data
    ∧ printer.argName ⟨"foo_bar", "t"⟩ "v" 0 false
        = ⟨'f'.toLower :: printer.varReplace "oo_bar".data⟩
    ∧ printer.argName ⟨"type", "t"⟩ "v" 0 false
        = "v" ++ gostrings.title ⟨'t'.toLower :: printer.varReplace "ype".data⟩
    ∧ printer.argName ⟨"foo_bar", "t"⟩ "v" 0 true
        = ⟨'f'.toLower.toUpper :: printer.varReplace "oo_bar".data⟩ := by
  refine ⟨C4_argName_rules.2.2.2.1 ⟨"", "t"⟩ "in" 2 rfl (by decide),
    C4_argName_rules.2.2.2.2.1 2 'b' "ar".data (by decide) (by decide),
    C4_argName_rules.2.2.2.2.2.1 ⟨"foo_bar", "t"⟩ "v" 0 'f' "oo_bar".data rfl (by decide),
    C4_argName_rules.2.2.2.2.2.2.1 ⟨"type", "t"⟩ "v" 0 't' "ype".data rfl (by decide),
    C4_argName_rules.2.2.2.2.2.2.2 ⟨"foo_bar", "t"⟩ "v" 0 'f' "oo_bar".data rfl (by decide)⟩

theorem keywords_agree (s : String) : dbusgen.isKeyword s = printer.isKeyword s := by
  have h : (s ∈ dbusgen.keywords) ↔ (s ∈ printer.goKeywords) := by
    constructor <;> (intro hm; fin_cases hm <;> simp [dbusgen.keywords, printer.goKeywords])
  by_cases hm : s ∈ dbusgen.keywords
  · rw [show dbusgen.isKeyword s = true by simpa [dbusgen.isKeyword] using hm,
      show printer.isKeyword s = true by simpa [printer.isKeyword] using h.mp hm]
  · rw [show dbusgen.isKeyword s = false by simpa [dbusgen.isKeyword] using hm,
      show printer.isKeyword s = false by simpa [printer.isKeyword] using (h.not.mp hm)]

/-- No two consecutive underscores: the fragment of raw names on which
the two derivers' regexps (`_+[a-zA-Z0-9]` vs `_([a-zA-Z0-9])`) agree. -/
def noDoubleUnd : List Char → Bool
  | [] => true
  | [_] => true
  | c :: d :: rest => !(c = '_' && d = '_') && noDoubleUnd (d :: rest)

theorem noDoubleUnd_tail {c : Char} {l : List Char}
    (h : noDoubleUnd (c :: l) = true) : noDoubleUnd l = true := by
  cases l with
  | nil => rfl
  | cons d rest =>
    rw [noDoubleUnd, Bool.and_eq_true] at h
    exact h.2

theorem varReplace_no_und : ∀ l : List Char, (∀ c ∈ l, c ≠ '_') →
    printer.varReplaceAux 0 l = l := by
  intro l
  induction l with
  | nil => intro _; rfl
  | cons c r ih =>
    intro h
    rw [printer.varReplaceAux, if_neg (h c (List.mem_cons_self _ _))]
    have hr := ih fun d hd => h d (List.mem_cons_of_mem _ hd)
    by_cases hc : printer.isAlnum c = true
    · rw [if_pos hc, if_pos rfl, hr]
    · rw [if_neg hc, hr]
      rfl

theorem single_eq_multi : ∀ l : List Char, noDoubleUnd l = true →
    dbusgen.varReplaceSingle l = printer.varReplaceAux 0 l
  | [], _ => rfl
  | [c], _ => by
    rw [dbusgen.varReplaceSingle, printer.varReplaceAux]
    by_cases hc : c = '_'
    · rw [if_pos hc, printer.varReplaceAux]
      subst hc
      rfl
    · rw [if_neg hc]
      by_cases ha : printer.isAlnum c = true
      · rw [if_pos ha, if_pos rfl, printer.varReplaceAux]
        rfl
      · rw [if_neg ha, printer.varReplaceAux]
        rfl
  | c :: d :: rest, h => by
    have htail : noDoubleUnd (d :: rest) = true := noDoubleUnd_tail h
    by_cases hc : c = '_'
    · have hd : ¬d = '_' := by
        subst hc
        rw [noDoubleUnd, Bool.and_eq_true] at h
        simpa using h.1
      by_cases ha : printer.isAlnum d = true
      · rw [dbusgen.varReplaceSingle, if_pos (by rw [hc, ha]; rfl),
          printer.varReplaceAux, if_pos hc, printer.varReplaceAux, if_neg hd, if_pos ha,
          if_neg (by omega), single_eq_multi rest (noDoubleUnd_tail htail)]
      · rw [dbusgen.varReplaceSingle, if_neg (by simp [ha]),
          printer.varReplaceAux, if_pos hc, printer.varReplaceAux, if_neg hd, if_neg ha]
        have : dbusgen.varReplaceSingle (d :: rest) = d :: dbusgen.varReplaceSingle rest := by
          cases rest with
          | nil => rw [dbusgen.varReplaceSingle]; rfl
          | cons e r2 => rw [dbusgen.varReplaceSingle, if_neg (by simp [hd])]
        rw [hc, this]
        have hmulti := single_eq_multi (d :: rest) htail
        rw [printer.varReplaceAux, if_neg hd, if_neg ha] at hmulti
        simp only [List.replicate, List.nil_append] at hmulti ⊢
        rw [show dbusgen.varReplaceSingle rest = printer.varReplaceAux 0 rest from ?_]
        · simp [List.replicate]
        · cases rest with
          | nil => rfl
          | cons e r2 =>
            have := single_eq_multi (d :: e :: r2) htail
            rw [dbusgen.varReplaceSingle, if_neg (by simp [hd])] at this
            rw [printer.varReplaceAux, if_neg hd, if_neg ha] at this
            simp only [List.replicate, List.nil_append, List.cons.injEq] at this
            exact single_eq_multi (e :: r2) (noDoubleUnd_tail htail)
    · rw [dbusgen.varReplaceSingle, if_neg (by simp [hc]), printer.varReplaceAux, if_neg hc]
      have hrec := single_eq_multi (d :: rest) htail
      by_cases ha : printer.isAlnum c = true
      · rw [if_pos ha, if_pos rfl, hrec]
      · rw [if_neg ha, hrec]
        rfl

/-- The camel-casing sub-expression of `printer.argName`'s non-empty
branch (first byte lower-cased, `varRegexp` replacement on the rest),
named so the agreement domain of the two derivers can be stated. -/
def camelName (s : String) : String :=
  match s.data with
  | [] => ""
  | c :: rest => ⟨c.toLower :: printer.varReplace rest⟩

/-- C10 (counterexample): the two embedded derivers disagree — arg.go's
`varRegexp` matches a single underscore (`_([a-zA-Z0-9])`), so a
two-underscore run in `foo__bar` leaves one underscore behind
(`foo_Bar`), while printer.go's `_+[a-zA-Z0-9]` collapses the whole run
(`fooBar`).  (They also disagree on keyword-check order, e.g. on raw
name `Type`: `newArg` gives `type`, `argName` gives `vType`.) -/
theorem C10_deriver_counterexample :
    dbusgen.newArgName "foo__bar" "v" 0 = "foo_Bar"
    ∧ printer.argName ⟨"foo__bar", ""⟩ "v" 0 false = "fooBar"
    ∧ ("foo_Bar" : String) ≠ "fooBar"
    ∧ dbusgen.newArgName "Type" "v" 0 = "type"
    ∧ printer.argName ⟨"Type", ""⟩ "v" 0 false = "vType" := by
  exact ⟨by decide, by decide, by decide, by decide, by decide⟩

/-- Helper for C10: on a Go keyword the printer's camel-casing is the
identity (keywords are lowercase letters without underscores). -/
theorem camel_keyword_eq (s : String) (hk : printer.isKeyword s = true) (c : Char)
    (rest : List Char) (hdc : s.data = c :: rest) :
    (⟨c.toLower :: printer.varReplace rest⟩ : String) = s := by
  have hlow := (keyword_chars s hk).2
  rw [hdc] at hlow
  have hc : c.toLower = c :=
    asciichar.toLower_eq_of_lower (hlow c (List.mem_cons_self _ _))
  have hrest : printer.varReplace rest = rest := by
    refine varReplace_no_und rest ?_
    intro d hd heq
    have := hlow d (List.mem_cons_of_mem _ hd)
    rw [heq] at this
    exact absurd this (by decide)
  rw [printer.varReplace] at hrest
  rw [printer.varReplace, hc, hrest]
  exact (string_eq_mk_data hdc).symm

/-- C10 (amended): the legacy deriver `newArg` and the printer's
`argName` (export off) agree on the raw names either deriver was built
for — the empty name, Go keywords, and names without consecutive
underscores whose camel-casing is not a keyword.  Outside that domain
they differ: consecutive underscores (see the counterexample) and names
whose camel-casing first *becomes* a keyword (`Type`) are handled
differently, because `newArg` tests the raw name for keywords before
camel-casing while `argName` tests the derived name after. -/
theorem C10_deriver_agreement (identifier pfx : String) (i : Nat)
    (h : identifier = "" ∨ printer.isKeyword identifier = true
       ∨ (noDoubleUnd identifier.data = true
          ∧ printer.isKeyword (camelName identifier) = false)) :
    dbusgen.newArgName identifier pfx i = printer.argName ⟨identifier, ""⟩ pfx i false := by
  rcases hdc : identifier.data with _ | ⟨c, rest⟩
  · have hkw : printer.isKeyword (pfx ++ Nat.repr i) = false := by
      obtain ⟨d, hd⟩ : ∃ d, d ∈ (Nat.repr i).data := by
        rcases hr : (Nat.repr i).data with _ | ⟨d, t⟩
        · exact absurd hr (repr_ne_nil i)
        · exact ⟨d, by simp [hr]⟩
      exact not_keyword_of_mem_not_lower _ d
        (by rw [String.data_append]; exact List.mem_append.mpr (Or.inr hd))
        (asciichar.digit_not_lower (repr_digits i d hd))
    simp [dbusgen.newArgName, printer.argName, hdc, hkw]
  · by_cases hk : printer.isKeyword identifier = true
    · have hname1 := camel_keyword_eq identifier hk c rest hdc
      rw [printer.varReplace] at hname1
      simp only [dbusgen.newArgName, printer.argName, hdc, keywords_agree, hk, ite_true,
        Bool.false_eq_true, if_false, printer.varReplace, hname1]
    · have h3 : noDoubleUnd identifier.data = true
          ∧ printer.isKeyword (camelName identifier) = false := by
        rcases h with he | hkk | h3
        · rw [he] at hdc
          exact absurd (show ([] : List Char) = c :: rest from hdc) (by simp)
        · exact absurd hkk hk
        · exact h3
      obtain ⟨hnd, hck⟩ := h3
      have hcam : camelName identifier = ⟨c.toLower :: printer.varReplace rest⟩ := by
        simp [camelName, hdc]
      rw [hcam] at hck
      rw [hdc] at hnd
      have hd2 : dbusgen.isKeyword identifier = false := by
        rw [keywords_agree]
        simpa using hk
      have hsm : dbusgen.varReplaceSingle rest = printer.varReplaceAux 0 rest :=
        single_eq_multi rest (noDoubleUnd_tail hnd)
      simp only [dbusgen.newArgName, printer.argName, hdc, hd2, Bool.false_eq_true, if_false,
        printer.varReplace] at hck ⊢
      rw [hsm, if_neg (by simp [hck])]

/-- C10 (witness): the agreement evaluated at `"foo_bar"` (ordinary
snake_case name), at the keyword `"type"`, and at the empty name. -/
theorem C10_deriver_agreement_witness :
    dbusgen.newArgName "foo_bar" "v" 0 = printer.argName ⟨"foo_bar", ""⟩ "v" 0 false
    ∧ dbusgen.newArgName "type" "v" 0 = printer.argName ⟨"type", ""⟩ "v" 0 false
    ∧ dbusgen.newArgName "" "in" 2 = printer.argName ⟨"", ""⟩ "in" 2 false := by
  refine ⟨C10_deriver_agreement "foo_bar" "v" 0 (Or.inr (Or.inr ⟨by decide, by decide⟩)),
    C10_deriver_agreement "type" "v" 0 (Or.inr (Or.inl (by decide))),
    C10_deriver_agreement "" "in" 2 (Or.inl rfl)⟩

theorem strings_eq_of_data_eq {a b : String} (h : a.data = b.data) : a = b :=
  string_eq_mk_data h

/-- Two sorted lists with pairwise-distinct keys that are permutations of
each other are equal (the sorted order of a keyed list is canonical when
no key repeats — Go's unstable `sort.Slice` is deterministic exactly on
this domain). -/
theorem eq_of_perm_sorted_nodupKey {α : Type} (f : α → String) (l1 l2 : List α)
    (hp : l1.Perm l2) (hs1 : l1.Pairwise (printer.keyLE f)) (hs2 : l2.Pairwise (printer.keyLE f))
    (hnd : (l1.map f).Nodup) : l1 = l2 := by
  haveI : IsAntisymm α (fun a b => printer.keyLE f a b ∧ f a ≠ f b) := by
    constructor
    intro a b h1 h2
    exact absurd (strings_eq_of_data_eq (printer.strLe_antisymm _ _ h1.1 h2.1)) h1.2
  have hnd2 : (l2.map f).Nodup := ((hp.map f).nodup_iff).mp hnd
  have hne1 : l1.Pairwise fun a b => f a ≠ f b := by
    rw [List.Nodup, List.pairwise_map] at hnd
    exact hnd
  have hne2 : l2.Pairwise fun a b => f a ≠ f b := by
    rw [List.Nodup, List.pairwise_map] at hnd2
    exact hnd2
  exact List.eq_of_perm_of_sorted (r := fun a b => printer.keyLE f a b ∧ f a ≠ f b) hp
    (hs1.and hne1) (hs2.and hne2)

/-- Sorting by a key is permutation-invariant when the keys are pairwise
distinct. -/
theorem insertionSortKey_eq {α : Type} (f : α → String) (l1 l2 : List α)
    (hp : l1.Perm l2) (hnd : (l1.map f).Nodup) :
    List.insertionSort (printer.keyLE f) l1 = List.insertionSort (printer.keyLE f) l2 := by
  have hperm : (List.insertionSort (printer.keyLE f) l1).Perm
      (List.insertionSort (printer.keyLE f) l2) :=
    ((List.perm_insertionSort _ l1).trans hp).trans (List.perm_insertionSort _ l2).symm
  have hnd1 : ((List.insertionSort (printer.keyLE f) l1).map f).Nodup :=
    (((List.perm_insertionSort (printer.keyLE f) l1).map f).nodup_iff).mpr hnd
  exact eq_of_perm_sorted_nodupKey f _ _ hperm
    (List.sorted_insertionSort _ l1) (List.sorted_insertionSort _ l2) hnd1

/-- One interface's member-name uniqueness (the spec's §3 invariant:
methods/properties/signals are sets keyed by name). -/
def membersNodup (i : token.Interface) : Prop :=
  (i.methods.map token.Method.name).Nodup
  ∧ (i.properties.map token.Property.name).Nodup
  ∧ (i.signals.map token.Signal.name).Nodup

/-- Equality of interfaces up to the order of their member lists. -/
def ifaceEquiv (a b : token.Interface) : Prop :=
  a.name = b.name ∧ a.methods.Perm b.methods ∧ a.properties.Perm b.properties
  ∧ a.signals.Perm b.signals ∧ a.annotations = b.annotations

/-- Two interface sequences presenting the same set: one is a
permutation of the other up to permutations inside each interface's
member lists. -/
def SameIfaceSet (l1 l2 : List token.Interface) : Prop :=
  ∃ l', l1.Perm l' ∧ List.Forall₂ ifaceEquiv l' l2

theorem sortIface_eq_of_equiv (a b : token.Interface) (hab : ifaceEquiv a b)
    (ha : membersNodup a) : printer.sortIface a = printer.sortIface b := by
  obtain ⟨hn, hm, hpp, hs, han⟩ := hab
  obtain ⟨ham, hap, has⟩ := ha
  cases a
  cases b
  simp only [printer.sortIface, token.Interface.mk.injEq]
  exact ⟨hn, insertionSortKey_eq _ _ _ hm ham, insertionSortKey_eq _ _ _ hpp hap,
    insertionSortKey_eq _ _ _ hs has, han⟩

theorem map_sortIface_eq (l' l2 : List token.Interface)
    (hf : List.Forall₂ ifaceEquiv l' l2) (hnd : ∀ x ∈ l', membersNodup x) :
    l'.map printer.sortIface = l2.map printer.sortIface := by
  induction hf with
  | nil => rfl
  | cons hx hrest ih =>
    simp only [List.map_cons]
    rw [sortIface_eq_of_equiv _ _ hx (hnd _ (List.mem_cons_self _ _)),
      ih fun x hx2 => hnd x (List.mem_cons_of_mem _ hx2)]

theorem prepare_eq_of_sameSet (l1 l2 : List token.Interface)
    (hs : SameIfaceSet l1 l2) (hnn : (l1.map token.Interface.name).Nodup)
    (hmn : ∀ x ∈ l1, membersNodup x) :
    printer.prepareIfaces l1 = printer.prepareIfaces l2 := by
  obtain ⟨l', hp, hf⟩ := hs
  have hname_comp : (token.Interface.name ∘ printer.sortIface) = token.Interface.name :=
    funext fun x => rfl
  have hmap : (l1.map printer.sortIface).Perm (l2.map printer.sortIface) := by
    have h2 : l'.map printer.sortIface = l2.map printer.sortIface :=
      map_sortIface_eq l' l2 hf fun x hx => hmn x (hp.symm.subset hx)
    exact (hp.map _).trans (by rw [h2])
  have hpermA : (printer.prepareIfaces l1).Perm (l1.map printer.sortIface) :=
    (List.perm_insertionSort _ l1).map _
  have hpermB : (printer.prepareIfaces l2).Perm (l2.map printer.sortIface) :=
    (List.perm_insertionSort _ l2).map _
  have hAB : (printer.prepareIfaces l1).Perm (printer.prepareIfaces l2) :=
    (hpermA.trans hmap).trans hpermB.symm
  have hsorted1 : (printer.prepareIfaces l1).Pairwise (printer.keyLE token.Interface.name) := by
    rw [printer.prepareIfaces, List.pairwise_map]
    exact (List.sorted_insertionSort (printer.keyLE token.Interface.name) l1).imp fun h => h
  have hsorted2 : (printer.prepareIfaces l2).Pairwise (printer.keyLE token.Interface.name) := by
    rw [printer.prepareIfaces, List.pairwise_map]
    exact (List.sorted_insertionSort (printer.keyLE token.Interface.name) l2).imp fun h => h
  have hndA : ((printer.prepareIfaces l1).map token.Interface.name).Nodup := by
    have h1 : (printer.prepareIfaces l1).map token.Interface.name
        = (List.insertionSort (printer.keyLE token.Interface.name) l1).map
            token.Interface.name := by
      rw [printer.prepareIfaces, List.map_map, hname_comp]
    rw [h1]
    exact (((List.perm_insertionSort _ l1).map token.Interface.name).nodup_iff).mpr hnn
  exact eq_of_perm_sorted_nodupKey token.Interface.name _ _ hAB hsorted1 hsorted2 hndA

/-- C1 (confirmed): for a non-empty set of interfaces — interfaces keyed
by name, and methods/properties/signals keyed by name within each
interface, the spec's §3 data-model invariant — `Print` produces
byte-identical output text on any two input orders, with methods,
properties and signals also arbitrarily permuted within each interface,
for any fixed options and any (fixed) external parser/formatter. -/
theorem C1_print_deterministic (gp : String → Except String Unit) (gf : String → String)
    (p : printer.Printer) (l1 l2 : List token.Interface)
    (hne : l1 ≠ []) (hset : SameIfaceSet l1 l2)
    (hnames : (l1.map token.Interface.name).Nodup)
    (hmembers : ∀ x ∈ l1, membersNodup x) :
    (printer.Print gp gf p l1).1 = (printer.Print gp gf p l2).1 := by
  have hlen : l1.length = l2.length := by
    obtain ⟨l', hp, hf⟩ := hset
    rw [hp.length_eq, hf.length_eq]
  have h1 : ¬l1.length = 0 := by
    simpa [List.length_eq_zero] using hne
  have h2 : ¬l2.length = 0 := by
    omega
  have hprep := prepare_eq_of_sameSet l1 l2 hset hnames hmembers
  by_cases hpkg : printer.identRegexpMatch p.pkgName = true
  · simp only [printer.Print, hpkg, Bool.not_true, Bool.false_eq_true, if_false,
      h1, h2, if_neg, hprep]
  · have hpkg' : printer.identRegexpMatch p.pkgName = false := by
      simpa using hpkg
    simp [printer.Print, hpkg']

/-- C1 (witness): the determinism theorem evaluated on a concrete
two-interface set presented in two different orders, with the one
interface's two methods also swapped. -/
theorem C1_print_deterministic_witness :
    (printer.Print (fun _ => .ok ()) (fun s => s) ⟨"dbusgen", true, []⟩
        [⟨"org.b", [⟨"M1", [], [], []⟩, ⟨"M2", [], [], []⟩], [], [], []⟩,
         ⟨"org.a", [], [], [], []⟩]).1
      = (printer.Print (fun _ => .ok ()) (fun s => s) ⟨"dbusgen", true, []⟩
        [⟨"org.a", [], [], [], []⟩,
         ⟨"org.b", [⟨"M2", [], [], []⟩, ⟨"M1", [], [], []⟩], [], [], []⟩]).1 := by
  refine C1_print_deterministic (fun _ => .ok ()) (fun s => s) ⟨"dbusgen", true, []⟩ _ _
    (by decide) ?_ (by decide) ?_
  · refine ⟨[⟨"org.a", [], [], [], []⟩,
      ⟨"org.b", [⟨"M1", [], [], []⟩, ⟨"M2", [], [], []⟩], [], [], []⟩], ?_, ?_⟩
    · exact List.Perm.swap _ _ _
    · refine List.Forall₂.cons ?_ (List.Forall₂.cons ?_ List.Forall₂.nil)
      · exact ⟨rfl, List.Perm.refl _, List.Perm.refl _, List.Perm.refl _, rfl⟩
      · exact ⟨rfl, List.Perm.swap _ _ _, List.Perm.refl _, List.Perm.refl _, rfl⟩
  · intro x hx
    rcases List.mem_cons.mp hx with rfl | hx2
    · exact ⟨by decide, by decide, by decide⟩
    · rcases List.mem_cons.mp hx2 with rfl | hx3
      · exact ⟨by decide, by decide, by decide⟩
      · simp at hx3
